import Mathlib

/-!
# sst: sealing pipeline, key selection and result aggregation

A shallow embedding of the Go sources of `dtherhtun/sst`
(`internal/client/client.go`, `internal/processor/processor.go`,
`internal/types/types.go`, `cmd/sst/main.go` and the older single-file
program `main.go`) together with the properties proved about them.

Conventions of the embedding:

* a Go `error` value is `Option GoError` (`none` is `nil`);
* a Go map is a `GoMap` (entries with pairwise distinct keys) and a map
  variable, which may be `nil`, is an `Option (GoMap V)`;
* calls into libraries (the Kubernetes clients, the sealing library, the
  YAML encoder, the file system, the certificate parsers) are fields of an
  environment record, so every theorem holds for every behaviour of them;
* a function that talks to the outside world returns the list of `Event`s
  it performs, in program order.
-/

namespace SST

/-! ## Basic Go values -/

/-- A Go byte slice. -/
abbrev Bytes := List (Fin 256)

/-- A non-nil Go error value, identified by the text of its `Error()` method. -/
structure GoError where
  msg : String
deriving DecidableEq

/-- The Go interface type `error`: `none` is `nil`. -/
abbrev error := Option GoError

/-- The call `fmt.Errorf(format, err)` for a format made of a fixed text followed by `%v`. -/
def Errorf (text : String) (err : GoError) : GoError :=
  ⟨text ++ err.msg⟩

/-- Outcome of a Go function returning `(*T, error)` that may also panic. -/
inductive GoResult (α : Type) where
  | ok (a : α)
  | err (e : GoError)
  | panic (msg : String)
deriving DecidableEq

/-- A Go map value that is not nil: its entries, no key occurring twice. -/
structure GoMap (V : Type) where
  entries : List (String × V)
  nodup : (entries.map Prod.fst).Nodup
deriving DecidableEq

namespace GoMap
variable {V : Type}

/-- The result of `make(map[string]V)`. -/
def make : GoMap V := ⟨[], List.nodup_nil⟩

/-- The lookup `m[k]` with the comma-ok flag folded into an `Option`. -/
def get (m : GoMap V) (k : String) : Option V :=
  (m.entries.find? (fun e => e.1 == k)).map Prod.snd

/-- Entry list after the assignment `m[k] = v`. -/
def setEntries (k : String) (v : V) : List (String × V) → List (String × V)
  | [] => [(k, v)]
  | e :: es => if e.1 = k then (k, v) :: es else e :: setEntries k v es

/-- The assignment `m[k] = v` on a non-nil map. -/
def set (m : GoMap V) (k : String) (v : V) : GoMap V :=
  ⟨setEntries k v m.entries, by
    have hkeys : ∀ (es : List (String × V)) (x : String),
        x ∈ (setEntries k v es).map Prod.fst ↔ x = k ∨ x ∈ es.map Prod.fst := by
      intro es
      induction es with
      | nil => intro x; simp [setEntries]
      | cons e es ih =>
        intro x
        by_cases h : e.1 = k
        · simp [setEntries, h]
        · simp only [setEntries, h, if_false, List.map_cons, List.mem_cons, ih]
          tauto
    have hnodup : ∀ es : List (String × V), (es.map Prod.fst).Nodup →
        ((setEntries k v es).map Prod.fst).Nodup := by
      intro es
      induction es with
      | nil => intro _; simp [setEntries]
      | cons e es ih =>
        intro h
        by_cases hk : e.1 = k
        · simp only [setEntries, hk, if_true, List.map_cons]
          simpa [hk] using h
        · simp only [setEntries, hk, if_false, List.map_cons, List.nodup_cons] at h ⊢
          refine ⟨?_, ih h.2⟩
          rw [hkeys]
          rintro (hx | hx)
          · exact hk hx
          · exact h.1 hx
    exact hnodup m.entries m.nodup⟩

end GoMap

/-- The lookup `m[k]` on a map variable of type `map[string][]byte`: a nil map and a
missing key both give the zero value, the nil slice. -/
def lookupBytes (m : Option (GoMap Bytes)) (k : String) : Bytes :=
  match m with
  | none => []
  | some d => (d.get k).getD []

/-! ## Kubernetes objects -/

/-- The type `metav1.Time` of an object read from the API server: an instant, in
seconds since the epoch. -/
structure Time where
  unix : Int
deriving DecidableEq

/-- The method `time.Time.After`, promoted to `metav1.Time`. -/
def Time.After (t u : Time) : Bool :=
  decide (u.unix < t.unix)

/-- The type `metav1.TypeMeta`. -/
structure TypeMeta where
  Kind : String := ""
  APIVersion : String := ""
deriving DecidableEq

/-- The type `metav1.OwnerReference`. -/
structure OwnerReference where
  APIVersion : String := ""
  Kind : String := ""
  Name : String := ""
  UID : String := ""
deriving DecidableEq

/-- The type `metav1.ObjectMeta`. -/
structure ObjectMeta where
  Name : String := ""
  GenerateName : String := ""
  Namespace : String := ""
  SelfLink : String := ""
  UID : String := ""
  ResourceVersion : String := ""
  Generation : Int := 0
  CreationTimestamp : Time := ⟨0⟩
  DeletionTimestamp : Option Time := none
  DeletionGracePeriodSeconds : Option Int := none
  Labels : Option (GoMap String) := none
  Annotations : Option (GoMap String) := none
  OwnerReferences : List OwnerReference := []
  Finalizers : List String := []
deriving DecidableEq

/-- The type `corev1.Secret`; the field `Type` is written `Type_`. -/
structure Secret where
  TypeMeta : TypeMeta := {}
  ObjectMeta : ObjectMeta := {}
  Immutable : Option Bool := none
  Data : Option (GoMap Bytes) := none
  StringData : Option (GoMap String) := none
  Type_ : String := ""
deriving DecidableEq

/-- The constant `corev1.SecretTypeServiceAccountToken`. -/
def SecretTypeServiceAccountToken : String := "kubernetes.io/service-account-token"

/-- The type `rsa.PublicKey`. -/
structure PublicKey where
  N : Nat
  E : Int
deriving DecidableEq

/-! ## Key selection (`internal/client/client.go`, `main.go`) -/

/-- The type `pem.Block`. -/
structure Block where
  Type_ : String
  Bytes : Bytes
deriving DecidableEq

/-- The dynamic type of the field `PublicKey` of an `x509.Certificate`. -/
inductive CertificateKey where
  | rsa (key : PublicKey)
  | other (algorithm : String)
deriving DecidableEq

/-- The type `x509.Certificate`, reduced to the field the program reads. -/
structure Certificate where
  PublicKey : CertificateKey
deriving DecidableEq

/-- Library calls made while fetching the key. -/
structure KeyEnv where
  /-- The call `client.CoreV1().Secrets(namespace).List(ctx, opts)`, by namespace and
  label selector. -/
  listSecrets : String → String → Except GoError (List Secret)
  /-- The first result of `pem.Decode`; `none` is a nil block. -/
  pemDecode : Bytes → Option Block
  /-- The call `x509.ParseCertificate`. -/
  ParseCertificate : Bytes → Except GoError Certificate

/-- The label selector both versions of the program list the key secrets with. -/
def activeKeySelector : String := "sealedsecrets.bitnami.com/sealed-secrets-key=active"

/-- The loop `for _, secret := range secrets.Items[1:]` with its variable `mostRecent`. -/
def selectionLoop (mostRecent : Secret) : List Secret → Secret
  | [] => mostRecent
  | secret :: rest =>
    if secret.ObjectMeta.CreationTimestamp.After mostRecent.ObjectMeta.CreationTimestamp then
      selectionLoop secret rest
    else
      selectionLoop mostRecent rest

/-- The statements `mostRecent := secrets.Items[0]` up to `keySecret = &mostRecent`;
`none` is the index-out-of-range panic of `secrets.Items[0]` on an empty slice. -/
def selectMostRecent (items : List Secret) : Option Secret :=
  match items[0]? with
  | none => none
  | some first => some (selectionLoop first (items.drop 1))

/-- The tail of both fetch functions, from `pem.Decode` to the final return. -/
def decodeKey (env : KeyEnv) (keySecret : Secret) : GoResult PublicKey :=
  match env.pemDecode (lookupBytes keySecret.Data "tls.crt") with
  | none => .err ⟨"failed to decode PEM block from certificate"⟩
  | some block =>
    match env.ParseCertificate block.Bytes with
    | .error e => .err (Errorf "failed to parse certificate: " e)
    | .ok cert =>
      match cert.PublicKey with
      | .rsa publicKey => .ok publicKey
      | .other _ => .err ⟨"certificate public key is not RSA"⟩

/-- The text of the run-time panic of `s[0]` on an empty slice. -/
def indexPanic : String := "runtime error: index out of range [0] with length 0"

/-- The function `client.FetchSealedSecretsPublicKey` of `internal/client/client.go`. -/
def FetchSealedSecretsPublicKey (env : KeyEnv) (ns : String) : GoResult PublicKey :=
  match env.listSecrets ns activeKeySelector with
  | .error e => .err (Errorf "error fetching sealed secrets key: " e)
  | .ok items =>
    if items.length = 0 then
      .err ⟨"no sealed secrets key found in namespace " ++ ns⟩
    else
      match selectMostRecent items with
      | none => .panic indexPanic
      | some keySecret => decodeKey env keySecret

/-- The function `fetchSealedSecretsPublicKey` of the single-file program `main.go`:
the same body without the test of `len(secrets.Items)`. -/
def fetchSealedSecretsPublicKey (env : KeyEnv) (ns : String) : GoResult PublicKey :=
  match env.listSecrets ns activeKeySelector with
  | .error e => .err (Errorf "error fetching sealed secrets key: " e)
  | .ok items =>
    match selectMostRecent items with
    | none => .panic indexPanic
    | some keySecret => decodeKey env keySecret

/-! ## Paths (`path/filepath` on a Unix system) -/

/-- Cut a path at every separator, as `strings.Split(path, "/")` does. -/
def splitSlash : List Char → List (List Char)
  | [] => [[]]
  | c :: cs =>
    if c = '/' then [] :: splitSlash cs
    else
      match splitSlash cs with
      | [] => [[c]]
      | x :: xs => (c :: x) :: xs

/-- One path element met by `filepath.Clean`; `out` holds the elements kept so far, the
last one first. -/
def cleanStep (rooted : Bool) (out : List (List Char)) (element : List Char) : List (List Char) :=
  if element = [] ∨ element = ['.'] then out
  else if element = ['.', '.'] then
    match out with
    | [] => if rooted then [] else [element]
    | top :: below => if top = ['.', '.'] then element :: out else below
  else element :: out

/-- The function `filepath.Clean`. -/
def Clean (path : String) : String :=
  if path = "" then "."
  else
    let rooted : Bool := path.data.head? = some '/'
    let out := (splitSlash path.data).foldl (cleanStep rooted) []
    let body := String.intercalate "/" (out.reverse.map String.mk)
    if rooted then "/" ++ body
    else if body = "" then "." else body

/-- The function `filepath.Join`. -/
def Join : List String → String
  | [] => ""
  | e :: rest => if e ≠ "" then Clean (String.intercalate "/" (e :: rest)) else Join rest

/-! ## The processor (`internal/types/types.go`, `internal/processor/processor.go`) -/

/-- The type `types.ExportMode`, a string. -/
abbrev ExportMode := String

/-- The constant `types.ExportModeYAML`. -/
def ExportModeYAML : ExportMode := "yaml"

/-- The constant `types.ExportModeDirect`. -/
def ExportModeDirect : ExportMode := "direct"

/-- The constant `types.MaxWorkers`. -/
def MaxWorkers : Nat := 10

/-- The type `types.ProcessResult`. -/
structure ProcessResult where
  SecretName : String := ""
  Success : Bool := false
  Skipped : Bool := false
  Err : error := none
deriving DecidableEq

/-- The type `types.SecretProcessor`. The client is part of the environment, the
channel `Results` is the sequence of `send` events, and the wait group has no content. -/
structure SecretProcessor where
  NewNamespace : String
  PublicKey : PublicKey
  ExportMode : ExportMode
  OutputDir : String
deriving DecidableEq

/-- The type `sealsecret.SealedSecretSpec`, reduced to template metadata and ciphertexts. -/
structure SealedSecretSpec where
  Template : ObjectMeta := {}
  TemplateType : String := ""
  EncryptedData : Option (GoMap String) := none
deriving DecidableEq

/-- The type `sealsecret.SealedSecret`. -/
structure SealedSecret where
  TypeMeta : TypeMeta := {}
  ObjectMeta : ObjectMeta := {}
  Spec : SealedSecretSpec := {}
deriving DecidableEq

/-- Library calls made while one secret is processed. -/
structure Env where
  /-- The call `sealsecret.NewSealedSecret(scheme.Codecs, publicKey, secret)`. -/
  NewSealedSecret : PublicKey → Secret → Except GoError SealedSecret
  /-- The call `yaml.Marshal`. -/
  Marshal : SealedSecret → Except GoError Bytes
  /-- The call `os.WriteFile(filename, data, perm)`. -/
  WriteFile : String → Bytes → Nat → error
  /-- The call `client.BitnamiV1alpha1().SealedSecrets(namespace).Create(ctx, ss, opts)`,
  its first result dropped. -/
  Create : String → SealedSecret → error

/-- What one call of `ProcessSecret` does to the outside world. -/
inductive Event where
  /-- The sealing library is called. -/
  | seal (publicKey : PublicKey) (cleanSecret : Secret)
  /-- The function `exportSealedSecretToYAML` is entered. -/
  | exportCall (outputDir : String) (ss : SealedSecret)
  /-- The YAML encoder is called. -/
  | marshal (ss : SealedSecret)
  /-- A file is written. -/
  | writeFile (filename : String) (data : Bytes) (perm : Nat)
  /-- The function `createSealedSecret` is entered and sends its create request. -/
  | createCall (ns : String) (ss : SealedSecret)
  /-- A value is sent on the channel `p.Results`. -/
  | send (result : ProcessResult)
deriving DecidableEq

/-- The function `NewProcessor`; the channel it makes has room for `resultsSize` values,
so that no send of a run blocks. -/
def NewProcessor (newNamespace : String) (publicKey : PublicKey) (exportMode : ExportMode)
    (outputDir : String) : SecretProcessor :=
  { NewNamespace := newNamespace, PublicKey := publicKey, ExportMode := exportMode,
    OutputDir := outputDir }

/-- The function `exportSealedSecretToYAML`: its events and the error it returns. -/
def exportSealedSecretToYAML (env : Env) (outputDir : String) (sealedSecret : SealedSecret) :
    List Event × error :=
  let sealedSecret : SealedSecret :=
    { sealedSecret with TypeMeta := { APIVersion := "bitnami.com/v1alpha1", Kind := "SealedSecret" } }
  match env.Marshal sealedSecret with
  | .error err => ([.marshal sealedSecret], some (Errorf "error marshaling to YAML: " err))
  | .ok yamlData =>
    let filename := Join [outputDir, sealedSecret.ObjectMeta.Name ++ "-sealed.yaml"]
    ([.marshal sealedSecret, .writeFile filename yamlData 0o644],
      env.WriteFile filename yamlData 0o644)

/-- The function `createSealedSecret`: its events and the error it returns. -/
def createSealedSecret (env : Env) (ns : String) (ss : SealedSecret) : List Event × error :=
  ([], env.Create ns ss)

/-- The secret `cleanSecret` that `ProcessSecret` builds and hands to the sealing library. -/
def cleanSecretOf (p : SecretProcessor) (secret : Secret) : Secret :=
  { ObjectMeta :=
      { Name := secret.ObjectMeta.Name
        Namespace := p.NewNamespace
        Labels := secret.ObjectMeta.Labels
        Annotations := secret.ObjectMeta.Annotations }
    Type_ := secret.Type_
    Data := secret.Data }

/-- The statement `switch p.ExportMode` of `ProcessSecret`, which has no default case:
the events of the sink that runs, if one does, and the value of `processErr` after it. -/
def exportSwitch (env : Env) (p : SecretProcessor) (ss : SealedSecret) : List Event × error :=
  if p.ExportMode = ExportModeYAML then
    let r := exportSealedSecretToYAML env p.OutputDir ss
    (.exportCall p.OutputDir ss :: r.1, r.2)
  else if p.ExportMode = ExportModeDirect then
    let r := createSealedSecret env p.NewNamespace ss
    (.createCall p.NewNamespace ss :: r.1, r.2)
  else
    ([], none)

/-- The function `ProcessSecret`: the events of one call, in program order. -/
def ProcessSecret (env : Env) (p : SecretProcessor) (secret : Secret) : List Event :=
  if secret.Type_ = SecretTypeServiceAccountToken ∨ secret.Type_ = "helm.sh/release.v1" then
    [.send { SecretName := secret.ObjectMeta.Name, Skipped := true }]
  else
    let cleanSecret := cleanSecretOf p secret
    match env.NewSealedSecret p.PublicKey cleanSecret with
    | .error err =>
      [.seal p.PublicKey cleanSecret,
        .send { SecretName := secret.ObjectMeta.Name
                Err := some (Errorf "error sealing secret: " err) }]
    | .ok ss =>
      let r := exportSwitch env p ss
      .seal p.PublicKey cleanSecret :: r.1 ++
        [.send { SecretName := secret.ObjectMeta.Name
                 Success := r.2.isNone
                 Err := r.2 }]

/-! ## The run (`cmd/sst/main.go`) -/

/-- The type `types.Config`. -/
structure Config where
  Kubeconfig : String := ""
  OldContext : String := ""
  NewContext : String := ""
  OldNamespace : String := ""
  NewNamespace : String := ""
  ExportMode : String := ""
  OutputDir : String := ""
  SSNamespace : String := ""
  SecretName : String := ""
  FromLiterals : List String := []
  FromFiles : List String := []
deriving DecidableEq

/-- The loop `for k, v := range additionalData` with body `secret.Data[k] = v`, the
entries visited in the order given. -/
def injectLoop (entries : List (String × Bytes)) (data : GoMap Bytes) : GoMap Bytes :=
  entries.foldl (fun d e => d.set e.1 e.2) data

/-- The injection block at the head of the body of the loop over `secrets.Items`: the
value of the local variable `secret` when the worker is started. The order in which Go
visits `additionalData` is the order of its entries. -/
def inject (config : Config) (additionalData : GoMap Bytes) (secret : Secret) : Secret :=
  if config.SecretName ≠ "" ∧ secret.ObjectMeta.Name = config.SecretName ∧
      additionalData.entries.length > 0 then
    let data : GoMap Bytes :=
      match secret.Data with
      | none => GoMap.make
      | some d => d
    { secret with Data := some (injectLoop additionalData.entries data) }
  else
    secret

/-- The events of the worker goroutine started for one item of `secrets.Items`. -/
def worker (env : Env) (p : SecretProcessor) (config : Config) (additionalData : GoMap Bytes)
    (item : Secret) : List Event :=
  ProcessSecret env p (inject config additionalData item)

/-- The events of concurrently running workers merged into one sequence. The schedule
names, step by step, the worker that performs its next event (a step naming a worker
that does not exist or has finished is void); when the schedule is used up the
remaining workers run to their end one after the other. -/
def interleave : List Nat → List (List Event) → List Event
  | [], workers => workers.flatten
  | i :: schedule, workers =>
    match workers[i]? with
    | some (e :: rest) => e :: interleave schedule (workers.set i rest)
    | _ => interleave schedule workers

/-- The values received by `for result := range processorObj.Results` once the channel
is closed: the values sent, in the order they were sent. -/
def received (events : List Event) : List ProcessResult :=
  events.filterMap fun
    | .send result => some result
    | _ => none

/-- The variables of the aggregation loop of `main`: the three counters and the lines
it logs (secret name and error of each failed result). -/
structure Counters where
  successCount : Nat := 0
  skippedCount : Nat := 0
  failedCount : Nat := 0
  logged : List (String × error) := []
deriving DecidableEq

/-- The body of the aggregation loop: the `switch` on one result. -/
def countResult (c : Counters) (result : ProcessResult) : Counters :=
  if result.Skipped then { c with skippedCount := c.skippedCount + 1 }
  else if result.Success then { c with successCount := c.successCount + 1 }
  else
    { c with
      failedCount := c.failedCount + 1
      logged := c.logged ++ [(result.SecretName, result.Err)] }

/-- The aggregation loop of `main` over the results it receives. -/
def aggregate (results : List ProcessResult) : Counters :=
  results.foldl countResult {}

/-- The triple of counters the claims speak of: succeeded, skipped, failed. -/
def Counters.triple (c : Counters) : Nat × Nat × Nat :=
  (c.successCount, c.skippedCount, c.failedCount)

/-- The first four arguments of the call `helpers.PrintSummary`. -/
structure Summary where
  total : Nat
  success : Nat
  skipped : Nat
  failed : Nat
deriving DecidableEq

/-- All events of the workers of one run of `main`, from `processor.NewProcessor` to
`processorObj.WG.Wait()`, under a schedule of the workers. -/
def runEvents (env : Env) (config : Config) (publicKey : PublicKey)
    (additionalData : GoMap Bytes) (items : List Secret) (schedule : List Nat) : List Event :=
  let processorObj := NewProcessor config.NewNamespace publicKey config.ExportMode config.OutputDir
  interleave schedule (items.map (worker env processorObj config additionalData))

/-- The part of `main` from `processor.NewProcessor` to the call of
`helpers.PrintSummary`: the summary that is reported. -/
def run (env : Env) (config : Config) (publicKey : PublicKey)
    (additionalData : GoMap Bytes) (items : List Secret) (schedule : List Nat) : Summary :=
  let c := aggregate (received (runEvents env config publicKey additionalData items schedule))
  { total := items.length, success := c.successCount, skipped := c.skippedCount,
    failed := c.failedCount }

/-! ## The admission gate (`cmd/sst/main.go`) -/

/-- Where a worker goroutine started by the loop of `main` stands. -/
inductive Phase where
  /-- Started; its send `semaphore <- struct{}{}` has not gone through yet. -/
  | waiting
  /-- The send has gone through and the worker is in `processor.ProcessSecret`. -/
  | inside
  /-- The call of `ProcessSecret` has returned; the receive `<-semaphore` is to come. -/
  | returned
  /-- The receive has gone through and the worker has ended. -/
  | done
deriving DecidableEq

/-- The state of the admission gate of a run: the channel `semaphore`, made with a
buffer of `types.MaxWorkers` values, and the workers started so far. -/
structure Gate where
  /-- Number of items of `secrets.Items` the loop of `main` has not reached yet. -/
  pending : Nat
  /-- Number of values in the buffer of the channel `semaphore`. -/
  semaphore : Nat
  /-- The workers, in the order the loop started them. -/
  workers : List Phase
deriving DecidableEq

/-- One move of a run: the loop of `main` starts the next worker, or the worker with
the given index takes its next step. -/
inductive Action where
  | spawn
  | worker (i : Nat)
deriving DecidableEq

/-- The state after a move, or `none` when the move cannot be made: the loop is over,
the worker does not exist or has ended, a send finds the buffer of the channel full,
or a receive finds it empty. -/
def Gate.step (g : Gate) : Action → Option Gate
  | .spawn =>
    if 0 < g.pending then
      some { g with pending := g.pending - 1, workers := g.workers ++ [.waiting] }
    else none
  | .worker i =>
    match g.workers[i]? with
    | some .waiting =>
      if g.semaphore < MaxWorkers then
        some { g with semaphore := g.semaphore + 1, workers := g.workers.set i .inside }
      else none
    | some .inside => some { g with workers := g.workers.set i .returned }
    | some .returned =>
      if 0 < g.semaphore then
        some { g with semaphore := g.semaphore - 1, workers := g.workers.set i .done }
      else none
    | _ => none

/-- The state of the gate when the loop over `n` items begins. -/
def Gate.start (n : Nat) : Gate :=
  { pending := n, semaphore := 0, workers := [] }

/-- The state reached by a schedule of moves; a move that cannot be made leaves the
state as it is (the goroutine stays blocked). -/
def Gate.exec (g : Gate) : List Action → Gate
  | [] => g
  | a :: schedule =>
    match g.step a with
    | some next => next.exec schedule
    | none => g.exec schedule

/-- The worker has acquired an admission slot and not released it. -/
def holdsSlot : Phase → Bool
  | .inside => true
  | .returned => true
  | _ => false

/-- Number of workers holding an admission slot. -/
def Gate.inFlight (g : Gate) : Nat :=
  g.workers.countP holdsSlot

/-- The invariant of the gate: the buffer of the channel holds one value per worker
that is between its send and its receive, and never more than its capacity. -/
def Gate.Inv (g : Gate) : Prop :=
  g.semaphore = g.inFlight ∧ g.semaphore ≤ MaxWorkers

/-- The state of the gate of a run over `n` items after a schedule of moves. -/
def Gate.reached (n : Nat) (schedule : List Action) : Gate :=
  (Gate.start n).exec schedule

/-! ## Words used in the statements -/

/-- Creation time of a key candidate. -/
def createdAt (s : Secret) : Int :=
  s.ObjectMeta.CreationTimestamp.unix

/-- The record has one of the two types `ProcessSecret` does not seal. -/
abbrev excluded (secret : Secret) : Prop :=
  secret.Type_ = SecretTypeServiceAccountToken ∨ secret.Type_ = "helm.sh/release.v1"

/-- The event is the entry into one of the two sinks. -/
def isSinkCall : Event → Bool
  | .exportCall _ _ => true
  | .createCall _ _ => true
  | _ => false

/-- The event is a call of the sealing library. -/
def isSealCall : Event → Bool
  | .seal _ _ => true
  | _ => false

/-- The error returned by the sink that the export mode selects. -/
def sinkError (env : Env) (p : SecretProcessor) (ss : SealedSecret) : error :=
  if p.ExportMode = ExportModeYAML then (exportSealedSecretToYAML env p.OutputDir ss).2
  else (createSealedSecret env p.NewNamespace ss).2

/-- What `filepath.Clean` puts before the last element of a path, when that element is
kept: the root, if the path is rooted, the elements kept before it, and a separator. -/
def cleanDir (rooted : Bool) (elements : List (List Char)) : String :=
  (if rooted then "/" else "") ++
    (if elements.foldl (cleanStep rooted) [] = [] then ""
      else String.intercalate "/"
        ((elements.foldl (cleanStep rooted) []).reverse.map String.mk) ++ "/")

/-- The directory part that `filepath.Join` puts before a plain file name. -/
def joinDir (d : String) : String :=
  if d = "" then "" else cleanDir (decide (d.data.head? = some '/')) (splitSlash d.data)

/-- The event is a call of `os.WriteFile`. -/
def isWriteFile : Event → Bool
  | .writeFile _ _ _ => true
  | _ => false

/-! ## Sample values -/

/-- A key candidate with the given name and creation time. -/
def keyCandidate (name : String) (created : Int) : Secret :=
  { ObjectMeta := { Name := name, Namespace := "kube-system", CreationTimestamp := ⟨created⟩ }
    Type_ := "kubernetes.io/tls" }

/-- A key environment in which the namespace holds no active key. -/
def noKeyEnv : KeyEnv :=
  { listSecrets := fun _ _ => .ok []
    pemDecode := fun _ => none
    ParseCertificate := fun _ => .error ⟨"no certificate"⟩ }

/-- A public key. -/
def sampleKey : PublicKey := ⟨3233, 17⟩

/-- A processor with the given export mode. -/
def sampleProcessor (mode : ExportMode) : SecretProcessor :=
  { NewNamespace := "prod", PublicKey := sampleKey, ExportMode := mode,
    OutputDir := "sealed-secrets" }

/-- A source record with the given name and type. -/
def sampleSecret (name : String) (type : String) : Secret :=
  { ObjectMeta := { Name := name, Namespace := "dev", UID := "u-1", ResourceVersion := "42" }
    Type_ := type
    Data := some (GoMap.make.set "a" [49]) }

/-- The sealed secret the sample sealing library returns. -/
def sampleSealed (secret : Secret) : SealedSecret :=
  { ObjectMeta := { Name := secret.ObjectMeta.Name, Namespace := secret.ObjectMeta.Namespace } }

/-- An environment in which sealing fails for the record `broken`, writing fails for
the record `locked` and the remote create fails for the record `taken`. -/
def sampleEnv : Env :=
  { NewSealedSecret := fun _ secret =>
      if secret.ObjectMeta.Name = "broken" then .error ⟨"secret has no data"⟩
      else .ok (sampleSealed secret)
    Marshal := fun _ => .ok [45, 45, 45]
    WriteFile := fun filename _ _ =>
      if filename = "sealed-secrets/locked-sealed.yaml" then some ⟨"permission denied"⟩
      else none
    Create := fun _ ss =>
      if ss.ObjectMeta.Name = "taken" then some ⟨"sealedsecrets taken already exists"⟩
      else none }

/-- The record `app` with data `a = "1"`. -/
def targetSecret : Secret :=
  { ObjectMeta := { Name := "app", Namespace := "dev" }
    Type_ := "Opaque"
    Data := some (GoMap.make.set "a" [49]) }

/-- A configuration naming the record `app`. -/
def targetConfig : Config :=
  { SecretName := "app", OldNamespace := "dev", NewNamespace := "prod", ExportMode := "yaml" }

/-- The extra data `a = "2"`, `b = "3"`. -/
def extraData : GoMap Bytes :=
  (GoMap.make.set "a" [50]).set "b" [51]

/-- A schedule for twelve items: the loop starts all twelve workers, then each worker
tries its send once, in the order they were started. -/
def crowdedSchedule : List Action :=
  List.replicate 12 .spawn ++ (List.range 12).map .worker

/-- A configuration of a run over a whole namespace, with the given export mode. -/
def runConfig (mode : String) : Config :=
  { OldNamespace := "dev", NewNamespace := "prod", ExportMode := mode,
    OutputDir := "sealed-secrets" }

/-! ## Key selection -/

theorem selectionLoop_decompose (rest : List Secret) :
    ∀ m : Secret, ∃ pre post, m :: rest = pre ++ selectionLoop m rest :: post ∧
      (∀ t ∈ pre, createdAt t < createdAt (selectionLoop m rest)) ∧
      (∀ t ∈ post, createdAt t ≤ createdAt (selectionLoop m rest)) := by
  induction rest with
  | nil =>
    intro m
    exact ⟨[], [], rfl, by simp, by simp⟩
  | cons s rest ih =>
    intro m
    by_cases h : s.ObjectMeta.CreationTimestamp.After m.ObjectMeta.CreationTimestamp = true
    · obtain ⟨pre, post, heq, hpre, hpost⟩ := ih s
      have hlt : createdAt m < createdAt s := by
        simpa [Time.After, createdAt] using h
      have hs : createdAt s ≤ createdAt (selectionLoop s rest) := by
        have hmem : s ∈ pre ++ selectionLoop s rest :: post := heq ▸ List.mem_cons_self s rest
        rcases List.mem_append.1 hmem with h1 | h1
        · exact le_of_lt (hpre s h1)
        · rcases List.mem_cons.1 h1 with h2 | h2
          · rw [← h2]
          · exact hpost s h2
      refine ⟨m :: pre, post, ?_, ?_, ?_⟩
      · simp [selectionLoop, h, heq]
      · intro t ht
        simp only [selectionLoop, h, if_true]
        rcases List.mem_cons.1 ht with h1 | h1
        · rw [h1]; exact lt_of_lt_of_le hlt hs
        · exact hpre t h1
      · simpa [selectionLoop, h] using hpost
    · obtain ⟨pre, post, heq, hpre, hpost⟩ := ih m
      have hle : createdAt s ≤ createdAt m := by
        simpa [Time.After, createdAt] using h
      have hsel : selectionLoop m (s :: rest) = selectionLoop m rest := by
        simp [selectionLoop, h]
      rw [hsel]
      cases pre with
      | nil =>
        simp only [List.nil_append, List.cons.injEq] at heq
        refine ⟨[], s :: post, ?_, by simp, ?_⟩
        · show m :: s :: rest = selectionLoop m rest :: s :: post
          rw [← heq.2, ← heq.1]
        · intro t ht
          rcases List.mem_cons.1 ht with h1 | h1
          · rw [h1, ← heq.1]; exact hle
          · exact hpost t h1
      | cons a pre =>
        simp only [List.cons_append, List.cons.injEq] at heq
        refine ⟨m :: s :: pre, post, ?_, ?_, hpost⟩
        · exact congrArg (fun l => m :: s :: l) heq.2
        · intro t ht
          have hm : createdAt m < createdAt (selectionLoop m rest) :=
            hpre m (by rw [heq.1]; exact List.mem_cons_self _ _)
          rcases List.mem_cons.1 ht with h1 | h1
          · rw [h1]; exact hm
          · rcases List.mem_cons.1 h1 with h2 | h2
            · rw [h2]; exact lt_of_le_of_lt hle hm
            · exact hpre t (List.mem_cons_of_mem _ h2)

theorem selectMostRecent_cons (first : Secret) (rest : List Secret) :
    selectMostRecent (first :: rest) = some (selectionLoop first rest) := by
  simp [selectMostRecent]

theorem FetchSealedSecretsPublicKey_of_items (env : KeyEnv) (ns : String) (first : Secret)
    (rest : List Secret) (h : env.listSecrets ns activeKeySelector = .ok (first :: rest)) :
    FetchSealedSecretsPublicKey env ns = decodeKey env (selectionLoop first rest) := by
  simp [FetchSealedSecretsPublicKey, h, selectMostRecent_cons]

theorem FetchSealedSecretsPublicKey_empty (env : KeyEnv) (ns : String)
    (h : env.listSecrets ns activeKeySelector = .ok []) :
    FetchSealedSecretsPublicKey env ns =
      .err ⟨"no sealed secrets key found in namespace " ++ ns⟩ := by
  simp [FetchSealedSecretsPublicKey, h]

/-- C1: for a non-empty list of key candidates with pairwise distinct creation times,
the selection loop of `FetchSealedSecretsPublicKey` picks a member of the list whose
creation time is the maximum over the list (every other candidate is strictly older),
and the function goes on to decode exactly that candidate. -/
theorem C1_selection_picks_the_maximum (items : List Secret) (hne : items ≠ [])
    (hdistinct : items.Pairwise (fun a b => createdAt a ≠ createdAt b)) :
    ∃ s, selectMostRecent items = some s ∧ s ∈ items ∧
      (∀ t ∈ items, createdAt t ≤ createdAt s) ∧
      (∀ t ∈ items, t ≠ s → createdAt t < createdAt s) ∧
      (∀ (env : KeyEnv) (ns : String), env.listSecrets ns activeKeySelector = .ok items →
        FetchSealedSecretsPublicKey env ns = decodeKey env s) := by
  cases items with
  | nil => exact absurd rfl hne
  | cons first rest =>
    obtain ⟨pre, post, heq, hpre, hpost⟩ := selectionLoop_decompose rest first
    have hmem : ∀ t, t ∈ first :: rest ↔
        t ∈ pre ∨ t = selectionLoop first rest ∨ t ∈ post := by
      intro t
      rw [heq]
      simp
    rw [heq] at hdistinct
    have hpost_ne : ∀ t ∈ post, createdAt (selectionLoop first rest) ≠ createdAt t :=
      (List.pairwise_cons.1 (List.pairwise_append.1 hdistinct).2.1).1
    refine ⟨selectionLoop first rest, selectMostRecent_cons first rest, ?_, ?_, ?_, ?_⟩
    · exact (hmem _).2 (Or.inr (Or.inl rfl))
    · intro t ht
      rcases (hmem t).1 ht with h1 | h1 | h1
      · exact le_of_lt (hpre t h1)
      · rw [h1]
      · exact hpost t h1
    · intro t ht hts
      rcases (hmem t).1 ht with h1 | h1 | h1
      · exact hpre t h1
      · exact absurd h1 hts
      · exact lt_of_le_of_ne (hpost t h1) (fun h => hpost_ne t h1 h.symm)
    · intro env ns h
      exact FetchSealedSecretsPublicKey_of_items env ns first rest h

/-- Witness of C1 on three candidates created at times 10, 30 and 20. -/
theorem C1_selection_picks_the_maximum_witness :
    ∃ s, selectMostRecent
        [keyCandidate "k1" 10, keyCandidate "k2" 30, keyCandidate "k3" 20] = some s ∧
      s ∈ [keyCandidate "k1" 10, keyCandidate "k2" 30, keyCandidate "k3" 20] ∧
      (∀ t ∈ [keyCandidate "k1" 10, keyCandidate "k2" 30, keyCandidate "k3" 20],
        createdAt t ≤ createdAt s) ∧
      (∀ t ∈ [keyCandidate "k1" 10, keyCandidate "k2" 30, keyCandidate "k3" 20],
        t ≠ s → createdAt t < createdAt s) ∧
      (∀ (env : KeyEnv) (ns : String), env.listSecrets ns activeKeySelector =
          .ok [keyCandidate "k1" 10, keyCandidate "k2" 30, keyCandidate "k3" 20] →
        FetchSealedSecretsPublicKey env ns = decodeKey env s) :=
  C1_selection_picks_the_maximum
    [keyCandidate "k1" 10, keyCandidate "k2" 30, keyCandidate "k3" 20]
    (by decide) (by decide)

/-- C2, as stated, fails: of two candidates created at the same time the loop keeps the
one that comes first in the input, not the one that comes later. -/
theorem C2_later_tied_candidate_not_picked :
    createdAt (keyCandidate "first" 7) = createdAt (keyCandidate "second" 7) ∧
      selectMostRecent [keyCandidate "first" 7, keyCandidate "second" 7] =
        some (keyCandidate "first" 7) ∧
      selectMostRecent [keyCandidate "first" 7, keyCandidate "second" 7] ≠
        some (keyCandidate "second" 7) := by
  decide

/-- C2, amended: for every non-empty list of key candidates the selection loop picks the
first candidate, in input order, that has the maximum creation time: every candidate
before the one picked is strictly older and none after it is newer. So candidates
that share the maximum creation time resolve to the earliest of them. -/
theorem C2_ties_resolve_to_the_first (items : List Secret) (hne : items ≠ []) :
    ∃ pre s post, items = pre ++ s :: post ∧ selectMostRecent items = some s ∧
      (∀ t ∈ pre, createdAt t < createdAt s) ∧
      (∀ t ∈ post, createdAt t ≤ createdAt s) := by
  cases items with
  | nil => exact absurd rfl hne
  | cons first rest =>
    obtain ⟨pre, post, heq, hpre, hpost⟩ := selectionLoop_decompose rest first
    exact ⟨pre, selectionLoop first rest, post, heq, selectMostRecent_cons first rest,
      hpre, hpost⟩

/-- Witness of the amended C2 on a list whose two newest candidates are tied. -/
theorem C2_ties_resolve_to_the_first_witness :
    ∃ pre s post,
      [keyCandidate "old" 3, keyCandidate "first" 7, keyCandidate "second" 7] =
        pre ++ s :: post ∧
      selectMostRecent
        [keyCandidate "old" 3, keyCandidate "first" 7, keyCandidate "second" 7] = some s ∧
      (∀ t ∈ pre, createdAt t < createdAt s) ∧
      (∀ t ∈ post, createdAt t ≤ createdAt s) :=
  C2_ties_resolve_to_the_first
    [keyCandidate "old" 3, keyCandidate "first" 7, keyCandidate "second" 7] (by decide)

/-- C3: when the namespace holds no active key, `FetchSealedSecretsPublicKey` of
`internal/client/client.go` returns the no-key-found error, while
`fetchSealedSecretsPublicKey` of `main.go`, which lacks the length test, panics on
`secrets.Items[0]`. -/
theorem C3_empty_list_error_and_panic :
    FetchSealedSecretsPublicKey noKeyEnv "kube-system" =
        .err ⟨"no sealed secrets key found in namespace kube-system"⟩ ∧
      fetchSealedSecretsPublicKey noKeyEnv "kube-system" =
        .panic "runtime error: index out of range [0] with length 0" := by
  decide

/-! ## One call of `ProcessSecret` -/

@[simp] theorem received_nil : received [] = [] := rfl

@[simp] theorem received_send (r : ProcessResult) (es : List Event) :
    received (.send r :: es) = r :: received es := rfl

@[simp] theorem received_seal (k : PublicKey) (c : Secret) (es : List Event) :
    received (.seal k c :: es) = received es := rfl

@[simp] theorem received_exportCall (d : String) (ss : SealedSecret) (es : List Event) :
    received (.exportCall d ss :: es) = received es := rfl

@[simp] theorem received_marshal (ss : SealedSecret) (es : List Event) :
    received (.marshal ss :: es) = received es := rfl

@[simp] theorem received_writeFile (f : String) (d : Bytes) (m : Nat) (es : List Event) :
    received (.writeFile f d m :: es) = received es := rfl

@[simp] theorem received_createCall (n : String) (ss : SealedSecret) (es : List Event) :
    received (.createCall n ss :: es) = received es := rfl

theorem received_append (a b : List Event) : received (a ++ b) = received a ++ received b := by
  simp [received, List.filterMap_append]

theorem exportSealedSecretToYAML_events (env : Env) (outputDir : String) (ss : SealedSecret) :
    (exportSealedSecretToYAML env outputDir ss).1.filter isSinkCall = [] ∧
      (exportSealedSecretToYAML env outputDir ss).1.filter isSealCall = [] ∧
      received (exportSealedSecretToYAML env outputDir ss).1 = [] := by
  unfold exportSealedSecretToYAML
  dsimp only
  split <;> simp [isSinkCall, isSealCall]

theorem exportSwitch_events (env : Env) (p : SecretProcessor) (ss : SealedSecret) :
    (exportSwitch env p ss).1.filter isSinkCall =
        (if p.ExportMode = ExportModeYAML then [.exportCall p.OutputDir ss]
          else if p.ExportMode = ExportModeDirect then [.createCall p.NewNamespace ss]
          else []) ∧
      (exportSwitch env p ss).1.filter isSealCall = [] ∧
      received (exportSwitch env p ss).1 = [] := by
  obtain ⟨h1, h2, h3⟩ := exportSealedSecretToYAML_events env p.OutputDir ss
  unfold exportSwitch
  by_cases hy : p.ExportMode = ExportModeYAML
  · rw [if_pos hy, if_pos hy]
    simp [isSinkCall, isSealCall, h1, h2, h3]
  · rw [if_neg hy, if_neg hy]
    by_cases hd : p.ExportMode = ExportModeDirect
    · rw [if_pos hd, if_pos hd]
      simp [isSinkCall, isSealCall, createSealedSecret]
    · rw [if_neg hd, if_neg hd]
      simp

theorem exportSwitch_error (env : Env) (p : SecretProcessor) (ss : SealedSecret)
    (hmode : p.ExportMode = ExportModeYAML ∨ p.ExportMode = ExportModeDirect) :
    (exportSwitch env p ss).2 = sinkError env p ss := by
  unfold exportSwitch sinkError
  by_cases hy : p.ExportMode = ExportModeYAML
  · rw [if_pos hy, if_pos hy]
  · rcases hmode with h | h
    · exact absurd h hy
    · rw [if_neg hy, if_neg hy, if_pos h]

theorem ProcessSecret_excluded (env : Env) (p : SecretProcessor) (secret : Secret)
    (h : excluded secret) :
    ProcessSecret env p secret =
      [.send { SecretName := secret.ObjectMeta.Name, Success := false, Skipped := true,
               Err := none }] := by
  unfold ProcessSecret
  rw [if_pos h]

theorem ProcessSecret_seal_error (env : Env) (p : SecretProcessor) (secret : Secret)
    (h : ¬ excluded secret) (e : GoError)
    (hseal : env.NewSealedSecret p.PublicKey (cleanSecretOf p secret) = .error e) :
    ProcessSecret env p secret =
      [.seal p.PublicKey (cleanSecretOf p secret),
        .send { SecretName := secret.ObjectMeta.Name, Success := false, Skipped := false,
                Err := some (Errorf "error sealing secret: " e) }] := by
  unfold ProcessSecret
  rw [if_neg h]
  simp only [hseal]

theorem ProcessSecret_sealed (env : Env) (p : SecretProcessor) (secret : Secret)
    (h : ¬ excluded secret) (ss : SealedSecret)
    (hseal : env.NewSealedSecret p.PublicKey (cleanSecretOf p secret) = .ok ss) :
    ProcessSecret env p secret =
      .seal p.PublicKey (cleanSecretOf p secret) :: (exportSwitch env p ss).1 ++
        [.send { SecretName := secret.ObjectMeta.Name
                 Success := (exportSwitch env p ss).2.isNone, Skipped := false
                 Err := (exportSwitch env p ss).2 }] := by
  unfold ProcessSecret
  rw [if_neg h]
  simp only [hseal]

/-- Every call of `ProcessSecret` sends exactly one result, named after the record. -/
theorem ProcessSecret_received (env : Env) (p : SecretProcessor) (secret : Secret) :
    ∃ r, received (ProcessSecret env p secret) = [r] ∧
      r.SecretName = secret.ObjectMeta.Name := by
  by_cases h : excluded secret
  · rw [ProcessSecret_excluded env p secret h]
    exact ⟨_, rfl, rfl⟩
  · cases hseal : env.NewSealedSecret p.PublicKey (cleanSecretOf p secret) with
    | error e =>
      rw [ProcessSecret_seal_error env p secret h e hseal]
      exact ⟨_, rfl, rfl⟩
    | ok ss =>
      rw [ProcessSecret_sealed env p secret h ss hseal]
      refine ⟨{ SecretName := secret.ObjectMeta.Name
                Success := (exportSwitch env p ss).2.isNone, Skipped := false
                Err := (exportSwitch env p ss).2 }, ?_, rfl⟩
      rw [List.cons_append, received_seal, received_append, (exportSwitch_events env p ss).2.2]
      rfl

theorem ProcessSecret_received_not_excluded (env : Env) (p : SecretProcessor) (secret : Secret)
    (h : ¬ excluded secret) :
    ∃ r, received (ProcessSecret env p secret) = [r] ∧ r.Skipped = false := by
  cases hseal : env.NewSealedSecret p.PublicKey (cleanSecretOf p secret) with
  | error e =>
    rw [ProcessSecret_seal_error env p secret h e hseal]
    exact ⟨{ SecretName := secret.ObjectMeta.Name, Success := false, Skipped := false
             Err := some (Errorf "error sealing secret: " e) }, rfl, rfl⟩
  | ok ss =>
    rw [ProcessSecret_sealed env p secret h ss hseal]
    refine ⟨{ SecretName := secret.ObjectMeta.Name
              Success := (exportSwitch env p ss).2.isNone, Skipped := false
              Err := (exportSwitch env p ss).2 }, ?_, rfl⟩
    rw [List.cons_append, received_seal, received_append, (exportSwitch_events env p ss).2.2]
    rfl

/-- C4: for a record of type service-account-token or `helm.sh/release.v1` the whole
effect of `ProcessSecret` is one send of a result with `Skipped = true`,
`Success = false` and `Err = nil` (so neither the sealing library nor a sink is
called); for a record of any other type every result sent has `Skipped = false`. -/
theorem C4_excluded_types_are_skipped (env : Env) (p : SecretProcessor) (secret : Secret) :
    (excluded secret →
        ProcessSecret env p secret =
            [.send { SecretName := secret.ObjectMeta.Name, Success := false, Skipped := true,
                     Err := none }] ∧
          (ProcessSecret env p secret).filter isSealCall = [] ∧
          (ProcessSecret env p secret).filter isSinkCall = []) ∧
      (¬ excluded secret →
        ∀ r ∈ received (ProcessSecret env p secret), r.Skipped = false) := by
  constructor
  · intro h
    rw [ProcessSecret_excluded env p secret h]
    exact ⟨rfl, rfl, rfl⟩
  · intro h r hr
    obtain ⟨r0, hr0, hskip⟩ := ProcessSecret_received_not_excluded env p secret h
    rw [hr0, List.mem_singleton] at hr
    rw [hr]
    exact hskip

/-- Witness of C4 on a service-account token, a Helm release and an opaque secret. -/
theorem C4_excluded_types_are_skipped_witness :
    ProcessSecret sampleEnv (sampleProcessor "yaml")
        (sampleSecret "default-token" "kubernetes.io/service-account-token") =
      [.send { SecretName := "default-token", Success := false, Skipped := true, Err := none }] ∧
    ProcessSecret sampleEnv (sampleProcessor "direct")
        (sampleSecret "sh.helm.release.v1.app.v1" "helm.sh/release.v1") =
      [.send { SecretName := "sh.helm.release.v1.app.v1", Success := false, Skipped := true,
               Err := none }] ∧
    (∀ r ∈ received (ProcessSecret sampleEnv (sampleProcessor "yaml")
        (sampleSecret "db-cred" "Opaque")), r.Skipped = false) :=
  ⟨((C4_excluded_types_are_skipped sampleEnv (sampleProcessor "yaml")
      (sampleSecret "default-token" "kubernetes.io/service-account-token")).1 (by decide)).1,
    ((C4_excluded_types_are_skipped sampleEnv (sampleProcessor "direct")
      (sampleSecret "sh.helm.release.v1.app.v1" "helm.sh/release.v1")).1 (by decide)).1,
    (C4_excluded_types_are_skipped sampleEnv (sampleProcessor "yaml")
      (sampleSecret "db-cred" "Opaque")).2 (by decide)⟩

/-- C5: for a record of a type that is not excluded and for which the sealing library
returns an error, `ProcessSecret` calls the sealing library, calls no sink, and sends
one result with `Success = false`, `Skipped = false` and a non-nil error whose text is
`error sealing secret: ` followed by the text of the sealing error. -/
theorem C5_sealing_error_is_failed (env : Env) (p : SecretProcessor) (secret : Secret)
    (hne : ¬ excluded secret) (e : GoError)
    (hseal : env.NewSealedSecret p.PublicKey (cleanSecretOf p secret) = .error e) :
    ProcessSecret env p secret =
        [.seal p.PublicKey (cleanSecretOf p secret),
          .send { SecretName := secret.ObjectMeta.Name, Success := false, Skipped := false,
                  Err := some ⟨"error sealing secret: " ++ e.msg⟩ }] ∧
      (ProcessSecret env p secret).filter isSinkCall = [] := by
  rw [ProcessSecret_seal_error env p secret hne e hseal]
  exact ⟨rfl, rfl⟩

/-- Witness of C5 on the record `broken`, which the sample sealing library rejects. -/
theorem C5_sealing_error_is_failed_witness :
    ProcessSecret sampleEnv (sampleProcessor "yaml") (sampleSecret "broken" "Opaque") =
        [.seal sampleKey (cleanSecretOf (sampleProcessor "yaml") (sampleSecret "broken" "Opaque")),
          .send { SecretName := "broken", Success := false, Skipped := false,
                  Err := some ⟨"error sealing secret: secret has no data"⟩ }] ∧
      (ProcessSecret sampleEnv (sampleProcessor "yaml")
        (sampleSecret "broken" "Opaque")).filter isSinkCall = [] :=
  C5_sealing_error_is_failed sampleEnv (sampleProcessor "yaml") (sampleSecret "broken" "Opaque")
    (by decide) ⟨"secret has no data"⟩ rfl

/-- C6: for a record of a type that is not excluded and that seals without error, with
export mode `yaml` or `direct`, `ProcessSecret` enters exactly one sink, the one the
mode names, and sends exactly one result, which is not skipped, carries the error the
sink returned, and has `Success = true` if and only if that error is nil. -/
theorem C6_sink_outcome_decides_success (env : Env) (p : SecretProcessor) (secret : Secret)
    (hne : ¬ excluded secret) (ss : SealedSecret)
    (hseal : env.NewSealedSecret p.PublicKey (cleanSecretOf p secret) = .ok ss)
    (hmode : p.ExportMode = ExportModeYAML ∨ p.ExportMode = ExportModeDirect) :
    (ProcessSecret env p secret).filter isSinkCall =
        [if p.ExportMode = ExportModeYAML then .exportCall p.OutputDir ss
          else .createCall p.NewNamespace ss] ∧
      ∃ r, received (ProcessSecret env p secret) = [r] ∧
        r.SecretName = secret.ObjectMeta.Name ∧ r.Skipped = false ∧
        r.Err = sinkError env p ss ∧
        (r.Success = true ↔ sinkError env p ss = none) ∧
        (sinkError env p ss ≠ none → r.Success = false) := by
  obtain ⟨hcalls, _, hrecv⟩ := exportSwitch_events env p ss
  have herr := exportSwitch_error env p ss hmode
  rw [ProcessSecret_sealed env p secret hne ss hseal]
  constructor
  · rw [List.cons_append, List.filter_cons, List.filter_append, hcalls]
    rcases hmode with h | h
    · rw [if_pos h, if_pos h]
      simp [isSinkCall]
    · have hy : ¬ p.ExportMode = ExportModeYAML := by
        rw [h]; decide
      rw [if_neg hy, if_pos h, if_neg hy]
      simp [isSinkCall]
  · refine ⟨{ SecretName := secret.ObjectMeta.Name
              Success := (exportSwitch env p ss).2.isNone, Skipped := false
              Err := (exportSwitch env p ss).2 }, ?_, rfl, rfl, herr, ?_, ?_⟩
    · rw [List.cons_append, received_seal, received_append, hrecv]
      rfl
    · show (exportSwitch env p ss).2.isNone = true ↔ _
      rw [herr]
      exact Option.isNone_iff_eq_none
    · intro hfail
      show (exportSwitch env p ss).2.isNone = false
      rw [herr]
      cases hs : sinkError env p ss with
      | none => exact absurd hs hfail
      | some _ => rfl

/-- Witness of C6: in mode `yaml` the record `db-cred` is written and succeeds, and in
mode `direct` the record `taken` is refused by the remote store and fails. -/
theorem C6_sink_outcome_decides_success_witness :
    ((ProcessSecret sampleEnv (sampleProcessor "yaml")
          (sampleSecret "db-cred" "Opaque")).filter isSinkCall =
        [if (sampleProcessor "yaml").ExportMode = ExportModeYAML then
            .exportCall (sampleProcessor "yaml").OutputDir
              (sampleSealed (cleanSecretOf (sampleProcessor "yaml")
                (sampleSecret "db-cred" "Opaque")))
          else .createCall (sampleProcessor "yaml").NewNamespace
              (sampleSealed (cleanSecretOf (sampleProcessor "yaml")
                (sampleSecret "db-cred" "Opaque")))] ∧
      ∃ r, received (ProcessSecret sampleEnv (sampleProcessor "yaml")
          (sampleSecret "db-cred" "Opaque")) = [r] ∧
        r.SecretName = (sampleSecret "db-cred" "Opaque").ObjectMeta.Name ∧ r.Skipped = false ∧
        r.Err = sinkError sampleEnv (sampleProcessor "yaml")
          (sampleSealed (cleanSecretOf (sampleProcessor "yaml")
            (sampleSecret "db-cred" "Opaque"))) ∧
        (r.Success = true ↔ sinkError sampleEnv (sampleProcessor "yaml")
          (sampleSealed (cleanSecretOf (sampleProcessor "yaml")
            (sampleSecret "db-cred" "Opaque"))) = none) ∧
        (sinkError sampleEnv (sampleProcessor "yaml")
          (sampleSealed (cleanSecretOf (sampleProcessor "yaml")
            (sampleSecret "db-cred" "Opaque"))) ≠ none → r.Success = false)) ∧
      sinkError sampleEnv (sampleProcessor "direct")
          (sampleSealed (cleanSecretOf (sampleProcessor "direct")
            (sampleSecret "taken" "Opaque"))) =
        some ⟨"sealedsecrets taken already exists"⟩ :=
  ⟨C6_sink_outcome_decides_success sampleEnv (sampleProcessor "yaml")
      (sampleSecret "db-cred" "Opaque") (by decide)
      (sampleSealed (cleanSecretOf (sampleProcessor "yaml") (sampleSecret "db-cred" "Opaque")))
      rfl (Or.inl rfl),
    by decide⟩

/-! ## The run -/

theorem inject_name (config : Config) (additionalData : GoMap Bytes) (secret : Secret) :
    (inject config additionalData secret).ObjectMeta.Name = secret.ObjectMeta.Name := by
  unfold inject
  split <;> rfl

theorem flatten_set_perm (workers : List (List Event)) :
    ∀ (i : Nat) (e : Event) (rest : List Event), workers[i]? = some (e :: rest) →
      (e :: (workers.set i rest).flatten).Perm workers.flatten := by
  induction workers with
  | nil => intro i e rest h; simp at h
  | cons w ws ih =>
    intro i e rest h
    cases i with
    | zero =>
      simp only [List.getElem?_cons_zero, Option.some.injEq] at h
      simp [h]
    | succ j =>
      simp only [List.getElem?_cons_succ] at h
      simp only [List.set_cons_succ, List.flatten_cons]
      exact (List.perm_middle.symm).trans ((ih j e rest h).append_left w)

theorem interleave_perm (schedule : List Nat) :
    ∀ workers : List (List Event), (interleave schedule workers).Perm workers.flatten := by
  induction schedule with
  | nil => intro workers; simp [interleave]
  | cons i schedule ih =>
    intro workers
    unfold interleave
    split
    · next e rest h =>
      exact ((ih (workers.set i rest)).cons e).trans (flatten_set_perm workers i e rest h)
    · exact ih workers

theorem received_workers (env : Env) (p : SecretProcessor) (config : Config)
    (additionalData : GoMap Bytes) (items : List Secret) :
    (received (items.map (worker env p config additionalData)).flatten).map
        (fun r => r.SecretName) = items.map (fun s => s.ObjectMeta.Name) := by
  induction items with
  | nil => rfl
  | cons item items ih =>
    obtain ⟨r, hr, hname⟩ :=
      ProcessSecret_received env p (inject config additionalData item)
    rw [List.map_cons, List.flatten_cons, received_append, List.map_append, ih]
    unfold worker
    rw [hr, List.map_cons, List.map_nil, hname, inject_name]
    rfl

theorem received_runEvents_names (env : Env) (config : Config) (publicKey : PublicKey)
    (additionalData : GoMap Bytes) (items : List Secret) (schedule : List Nat) :
    ((received (runEvents env config publicKey additionalData items schedule)).map
      (fun r => r.SecretName)).Perm (items.map (fun s => s.ObjectMeta.Name)) := by
  unfold runEvents
  dsimp only
  rw [← received_workers env _ config additionalData items]
  exact ((interleave_perm schedule _).filterMap _).map _

theorem received_runEvents_length (env : Env) (config : Config) (publicKey : PublicKey)
    (additionalData : GoMap Bytes) (items : List Secret) (schedule : List Nat) :
    (received (runEvents env config publicKey additionalData items schedule)).length =
      items.length := by
  have h := (received_runEvents_names env config publicKey additionalData items schedule).length_eq
  simpa using h

/-- C7: whatever the sealing library and the sinks do, one call of `ProcessSecret`
sends exactly one result and its `SecretName` is the name of the record; hence, under
every schedule of the workers, a run over n records sends exactly n results, whose
names are the names of the input records, each as often as it occurs in the input. -/
theorem C7_one_result_per_record (env : Env) (p : SecretProcessor) (secret : Secret) :
    (∃ r, received (ProcessSecret env p secret) = [r] ∧
        r.SecretName = secret.ObjectMeta.Name) ∧
      ∀ (config : Config) (publicKey : PublicKey) (additionalData : GoMap Bytes)
        (items : List Secret) (schedule : List Nat),
        (received (runEvents env config publicKey additionalData items schedule)).length =
            items.length ∧
          ((received (runEvents env config publicKey additionalData items schedule)).map
            (fun r => r.SecretName)).Perm (items.map (fun s => s.ObjectMeta.Name)) :=
  ⟨ProcessSecret_received env p secret, fun config publicKey additionalData items schedule =>
    ⟨received_runEvents_length env config publicKey additionalData items schedule,
      received_runEvents_names env config publicKey additionalData items schedule⟩⟩

/-! ## Aggregation -/

theorem foldl_countResult_sum (results : List ProcessResult) :
    ∀ c : Counters,
      (results.foldl countResult c).successCount + (results.foldl countResult c).skippedCount +
          (results.foldl countResult c).failedCount =
        c.successCount + c.skippedCount + c.failedCount + results.length := by
  induction results with
  | nil => intro c; rfl
  | cons r results ih =>
    intro c
    rw [List.foldl_cons, ih, List.length_cons]
    unfold countResult
    split
    · simp only; omega
    · split
      · simp only; omega
      · simp only; omega

theorem foldl_countResult_triple (results : List ProcessResult) :
    ∀ c : Counters,
      (results.foldl countResult c).triple =
        (c.successCount + results.countP (fun r => !r.Skipped && r.Success),
          c.skippedCount + results.countP (fun r => r.Skipped),
          c.failedCount + results.countP (fun r => !r.Skipped && !r.Success)) := by
  induction results with
  | nil => intro c; rfl
  | cons r results ih =>
    intro c
    rw [List.foldl_cons, ih]
    unfold countResult
    cases hs : r.Skipped <;> cases hk : r.Success <;>
      simp [List.countP_cons, hs, hk, Nat.add_assoc, Nat.add_comm]

theorem interleave_nil (schedule : List Nat) : interleave schedule [] = [] :=
  List.Perm.eq_nil (interleave_perm schedule [])

/-- C8: for every list of input records, every behaviour of sealing and sinks and every
schedule of the workers, the counters of the aggregation loop add up to the number
of input records, which is the total reported; for the empty list the summary is all
zeros. -/
theorem C8_counters_add_up_to_total (env : Env) (config : Config) (publicKey : PublicKey)
    (additionalData : GoMap Bytes) (items : List Secret) (schedule : List Nat) :
    (run env config publicKey additionalData items schedule).success +
          (run env config publicKey additionalData items schedule).skipped +
          (run env config publicKey additionalData items schedule).failed =
        (run env config publicKey additionalData items schedule).total ∧
      (run env config publicKey additionalData items schedule).total = items.length ∧
      run env config publicKey additionalData [] schedule =
        { total := 0, success := 0, skipped := 0, failed := 0 } := by
  refine ⟨?_, rfl, ?_⟩
  · have h := foldl_countResult_sum
      (received (runEvents env config publicKey additionalData items schedule)) {}
    rw [received_runEvents_length] at h
    simpa [run, aggregate] using h
  · simp [run, runEvents, interleave_nil, aggregate]

/-- C9: the counters computed by the aggregation loop do not depend on the order of the
results: two lists of results that are permutations of each other give the same
triple (succeeded, skipped, failed). -/
theorem C9_aggregation_is_order_independent (l₁ l₂ : List ProcessResult) (h : l₁.Perm l₂) :
    (aggregate l₁).triple = (aggregate l₂).triple := by
  unfold aggregate
  rw [foldl_countResult_triple, foldl_countResult_triple, h.countP_eq, h.countP_eq, h.countP_eq]

/-- Witness of C9 on a success, a skip and a failure, folded in two orders. -/
theorem C9_aggregation_is_order_independent_witness :
    (aggregate [{ SecretName := "a", Success := true }, { SecretName := "b", Skipped := true },
        { SecretName := "c", Err := some ⟨"conflict"⟩ }]).triple =
      (aggregate [{ SecretName := "c", Err := some ⟨"conflict"⟩ },
        { SecretName := "a", Success := true }, { SecretName := "b", Skipped := true }]).triple :=
  C9_aggregation_is_order_independent _ _ (by decide)

/-! ## Injection -/

theorem GoMap.find_setEntries_self {V : Type} (k : String) (v : V) (es : List (String × V)) :
    (GoMap.setEntries k v es).find? (fun e => e.1 == k) = some (k, v) := by
  induction es with
  | nil => simp [GoMap.setEntries]
  | cons e es ih =>
    by_cases h : e.1 = k
    · simp [GoMap.setEntries, h]
    · simp [GoMap.setEntries, h, List.find?_cons, ih]

theorem GoMap.find_setEntries_ne {V : Type} (k j : String) (v : V) (es : List (String × V))
    (hj : j ≠ k) :
    (GoMap.setEntries k v es).find? (fun e => e.1 == j) = es.find? (fun e => e.1 == j) := by
  induction es with
  | nil => simp [GoMap.setEntries, List.find?_cons, Ne.symm hj]
  | cons e es ih =>
    by_cases h : e.1 = k
    · have hk : ¬ k = j := Ne.symm hj
      have he : ¬ e.1 = j := by rw [h]; exact hk
      simp [GoMap.setEntries, h, List.find?_cons, hk]
    · by_cases he : e.1 = j
      · simp [GoMap.setEntries, h, hj, List.find?_cons, he]
      · simp [GoMap.setEntries, h, List.find?_cons, he, ih]

theorem GoMap.get_set_self {V : Type} (m : GoMap V) (k : String) (v : V) :
    (m.set k v).get k = some v := by
  simp [GoMap.get, GoMap.set, GoMap.find_setEntries_self]

theorem GoMap.get_set_ne {V : Type} (m : GoMap V) (k j : String) (v : V) (hj : j ≠ k) :
    (m.set k v).get j = m.get j := by
  simp [GoMap.get, GoMap.set, GoMap.find_setEntries_ne k j v m.entries hj]

theorem GoMap.mem_of_get {V : Type} (m : GoMap V) (k : String) (v : V)
    (h : m.get k = some v) : (k, v) ∈ m.entries := by
  unfold GoMap.get at h
  cases hf : m.entries.find? (fun e => e.1 == k) with
  | none => rw [hf] at h; cases h
  | some e =>
    rw [hf] at h
    have hv : e.2 = v := by simpa using h
    have hk : e.1 = k := by simpa using List.find?_some hf
    have hmem := List.mem_of_find?_eq_some hf
    rw [← hk, ← hv]
    exact hmem

theorem GoMap.not_key_of_get {V : Type} (m : GoMap V) (k : String)
    (h : m.get k = none) : k ∉ m.entries.map Prod.fst := by
  unfold GoMap.get at h
  have hf : m.entries.find? (fun e => e.1 == k) = none := by
    cases hfind : m.entries.find? (fun e => e.1 == k) with
    | none => rfl
    | some e => rw [hfind] at h; cases h
  intro hmem
  obtain ⟨e, he, hk⟩ := List.mem_map.1 hmem
  have := List.find?_eq_none.1 hf e he
  simp [hk] at this

theorem injectLoop_get_other (entries : List (String × Bytes)) :
    ∀ (data : GoMap Bytes) (k : String), k ∉ entries.map Prod.fst →
      (injectLoop entries data).get k = data.get k := by
  induction entries with
  | nil => intro data k _; rfl
  | cons e es ih =>
    intro data k hk
    simp only [List.map_cons, List.mem_cons, not_or] at hk
    show (injectLoop es (data.set e.1 e.2)).get k = data.get k
    rw [ih _ k hk.2, GoMap.get_set_ne _ _ _ _ hk.1]

theorem injectLoop_get_injected (entries : List (String × Bytes)) :
    (entries.map Prod.fst).Nodup → ∀ (data : GoMap Bytes) (k : String) (v : Bytes),
      (k, v) ∈ entries → (injectLoop entries data).get k = some v := by
  induction entries with
  | nil => intro _ data k v h; cases h
  | cons e es ih =>
    intro hnd data k v hmem
    simp only [List.map_cons, List.nodup_cons] at hnd
    show (injectLoop es (data.set e.1 e.2)).get k = some v
    rcases List.mem_cons.1 hmem with h | h
    · subst h
      rw [injectLoop_get_other es _ _ hnd.1, GoMap.get_set_self]
    · exact ih hnd.2 _ k v h

theorem ProcessSecret_head (env : Env) (p : SecretProcessor) (secret : Secret)
    (h : ¬ excluded secret) :
    ∃ rest, ProcessSecret env p secret = .seal p.PublicKey (cleanSecretOf p secret) :: rest := by
  cases hseal : env.NewSealedSecret p.PublicKey (cleanSecretOf p secret) with
  | error e => exact ⟨_, ProcessSecret_seal_error env p secret h e hseal⟩
  | ok ss => exact ⟨_, ProcessSecret_sealed env p secret h ss hseal⟩

/-- C10: for the record named by `-secret-name`, with non-empty extra data, the data map
of the record handed to the worker exists even when the source map was nil, maps
every injected key to its injected value, and maps every other key to what the
source map held (nothing, for a nil map); when the type of the record is not
excluded, `ProcessSecret` passes exactly this map to the sealing library. -/
theorem C10_injection_overrides_data (config : Config) (additionalData : GoMap Bytes)
    (secret : Secret)
    (htarget : config.SecretName ≠ "" ∧ secret.ObjectMeta.Name = config.SecretName)
    (hextra : additionalData.entries ≠ []) :
    ∃ data, (inject config additionalData secret).Data = some data ∧
      (∀ k v, additionalData.get k = some v → data.get k = some v) ∧
      (∀ k, additionalData.get k = none →
        data.get k = secret.Data.bind (fun d => d.get k)) ∧
      (∀ (env : Env) (p : SecretProcessor), ¬ excluded secret →
        ∃ rest, ProcessSecret env p (inject config additionalData secret) =
          .seal p.PublicKey { cleanSecretOf p secret with Data := some data } :: rest) := by
  have hlen : additionalData.entries.length > 0 := List.length_pos.2 hextra
  have hcond : config.SecretName ≠ "" ∧ secret.ObjectMeta.Name = config.SecretName ∧
      additionalData.entries.length > 0 := ⟨htarget.1, htarget.2, hlen⟩
  have hinj : inject config additionalData secret =
      { secret with Data := some (injectLoop additionalData.entries
          (match secret.Data with
            | none => GoMap.make
            | some d => d)) } := by
    unfold inject
    rw [if_pos hcond]
  refine ⟨_, by rw [hinj], ?_, ?_, ?_⟩
  · intro k v hk
    exact injectLoop_get_injected _ additionalData.nodup _ k v
      (GoMap.mem_of_get additionalData k v hk)
  · intro k hk
    rw [injectLoop_get_other _ _ k (GoMap.not_key_of_get additionalData k hk)]
    cases secret.Data with
    | none => rfl
    | some d => rfl
  · intro env p hne
    have hne2 : ¬ excluded (inject config additionalData secret) := by
      rw [hinj]; exact hne
    obtain ⟨rest, hrest⟩ := ProcessSecret_head env p _ hne2
    refine ⟨rest, ?_⟩
    rw [hrest, hinj]
    rfl

/-- Witness of C10 on the example of the specification: data `a = "1"`, extra data
`a = "2"` and `b = "3"`; the data sealed is `a = "2"`, `b = "3"`. -/
theorem C10_injection_overrides_data_witness :
    (∃ data, (inject targetConfig extraData targetSecret).Data = some data ∧
      (∀ k v, extraData.get k = some v → data.get k = some v) ∧
      (∀ k, extraData.get k = none →
        data.get k = targetSecret.Data.bind (fun d => d.get k)) ∧
      (∀ (env : Env) (p : SecretProcessor), ¬ excluded targetSecret →
        ∃ rest, ProcessSecret env p (inject targetConfig extraData targetSecret) =
          .seal p.PublicKey { cleanSecretOf p targetSecret with Data := some data } :: rest)) ∧
      (inject targetConfig extraData targetSecret).Data =
        some ((GoMap.make.set "a" [50]).set "b" [51]) ∧
      (inject targetConfig extraData { targetSecret with Data := none }).Data =
        some ((GoMap.make.set "a" [50]).set "b" [51]) :=
  ⟨C10_injection_overrides_data targetConfig extraData targetSecret (by decide) (by decide),
    by decide, by decide⟩

/-! ## The admission gate -/

theorem countP_set_holdsSlot (workers : List Phase) :
    ∀ (i : Nat) (old new : Phase), workers[i]? = some old →
      (workers.set i new).countP holdsSlot + (if holdsSlot old then 1 else 0) =
        workers.countP holdsSlot + (if holdsSlot new then 1 else 0) := by
  induction workers with
  | nil => intro i old new h; simp at h
  | cons w ws ih =>
    intro i old new h
    cases i with
    | zero =>
      simp only [List.getElem?_cons_zero, Option.some.injEq] at h
      subst h
      simp only [List.set_cons_zero, List.countP_cons]
      omega
    | succ j =>
      simp only [List.getElem?_cons_succ] at h
      have := ih j old new h
      simp only [List.set_cons_succ, List.countP_cons]
      omega

theorem Gate.inv_start (n : Nat) : (Gate.start n).Inv := by
  simp [Gate.Inv, Gate.start, Gate.inFlight]

theorem Gate.inv_step (g next : Gate) (a : Action) (hinv : g.Inv) (h : g.step a = some next) :
    next.Inv := by
  obtain ⟨hcount, hcap⟩ := hinv
  unfold Gate.inFlight at hcount
  cases a with
  | spawn =>
    simp only [Gate.step] at h
    split at h
    · cases h
      simp [Gate.Inv, Gate.inFlight, List.countP_append, holdsSlot, hcount, hcap]
      rw [← hcount]; exact hcap
    · cases h
  | worker i =>
    simp only [Gate.step] at h
    split at h
    · next hw =>
      split at h
      · next hlt =>
        cases h
        have := countP_set_holdsSlot g.workers i .waiting .inside hw
        simp only [holdsSlot] at this
        simp only [Gate.Inv, Gate.inFlight]
        constructor
        · simp at this; omega
        · omega
      · cases h
    · next hw =>
      cases h
      have := countP_set_holdsSlot g.workers i .inside .returned hw
      simp only [holdsSlot] at this
      simp only [Gate.Inv, Gate.inFlight]
      constructor
      · simp at this; omega
      · omega
    · next hw =>
      split at h
      · next hpos =>
        cases h
        have := countP_set_holdsSlot g.workers i .returned .done hw
        simp only [holdsSlot] at this
        simp only [Gate.Inv, Gate.inFlight]
        constructor
        · simp at this; omega
        · omega
      · cases h
    · cases h

theorem Gate.inv_exec (schedule : List Action) :
    ∀ g : Gate, g.Inv → (g.exec schedule).Inv := by
  induction schedule with
  | nil => intro g h; exact h
  | cons a schedule ih =>
    intro g h
    unfold Gate.exec
    split
    · next next hstep => exact ih next (Gate.inv_step g next a h hstep)
    · exact ih g h

theorem Gate.inv_reached (n : Nat) (schedule : List Action) : (Gate.reached n schedule).Inv :=
  Gate.inv_exec schedule (Gate.start n) (Gate.inv_start n)

theorem Gate.semaphore_pos (g : Gate) (hinv : g.Inv) (i : Nat) (ph : Phase)
    (hw : g.workers[i]? = some ph) (hslot : holdsSlot ph = true) : 0 < g.semaphore := by
  rw [hinv.1]
  exact List.countP_pos_iff.2 ⟨ph, List.getElem?_mem hw, hslot⟩

theorem Gate.release (g : Gate) (hinv : g.Inv) (i : Nat)
    (hw : g.workers[i]? = some .returned) :
    ∃ next, g.step (.worker i) = some next ∧ next.workers[i]? = some .done ∧
      next.inFlight + 1 = g.inFlight ∧ next.semaphore + 1 = g.semaphore := by
  have hpos := Gate.semaphore_pos g hinv i .returned hw rfl
  have hlen : i < g.workers.length := by
    rcases Nat.lt_or_ge i g.workers.length with h | h
    · exact h
    · rw [List.getElem?_eq_none h] at hw; cases hw
  have hcount := countP_set_holdsSlot g.workers i .returned .done hw
  simp only [holdsSlot] at hcount
  refine ⟨{ g with semaphore := g.semaphore - 1, workers := g.workers.set i .done },
    ?_, ?_, ?_, ?_⟩
  · simp only [Gate.step, hw, hpos, if_true]
  · exact List.getElem?_set_self hlen
  · simp only [Gate.inFlight]
    simp at hcount
    omega
  · show g.semaphore - 1 + 1 = g.semaphore
    omega

/-- C12: in every state a run over any number of items can reach, under any schedule of
the main loop and the workers, the number of workers that hold an admission slot
(they are past their send on `semaphore` and before their receive) equals the number
of values in the channel and is at most `MaxWorkers`, which is 10; a worker inside
`ProcessSecret` can always go on to return, and a worker whose `ProcessSecret` has
returned is never blocked on its receive: the receive ends the worker and frees
exactly one slot. -/
theorem C12_admission_gate_caps_workers (n : Nat) (schedule : List Action) :
    MaxWorkers = 10 ∧
      (Gate.reached n schedule).inFlight ≤ MaxWorkers ∧
      (Gate.reached n schedule).semaphore = (Gate.reached n schedule).inFlight ∧
      ∀ i : Nat,
        ((Gate.reached n schedule).workers[i]? = some .inside →
          (Gate.reached n schedule).step (.worker i) =
            some { Gate.reached n schedule with
              workers := (Gate.reached n schedule).workers.set i .returned }) ∧
        ((Gate.reached n schedule).workers[i]? = some .returned →
          ∃ next, (Gate.reached n schedule).step (.worker i) = some next ∧
            next.workers[i]? = some .done ∧
            next.inFlight + 1 = (Gate.reached n schedule).inFlight ∧
            next.semaphore + 1 = (Gate.reached n schedule).semaphore) := by
  have hinv := Gate.inv_reached n schedule
  refine ⟨rfl, ?_, hinv.1, fun i => ⟨?_, ?_⟩⟩
  · rw [← hinv.1]; exact hinv.2
  · intro hw
    simp only [Gate.step, hw]
  · intro hw
    exact Gate.release _ hinv i hw

/-- Witness of C12: twelve workers are started and each tries to enter; ten hold a slot,
the last two are kept waiting, and worker 0, once it has returned from
`ProcessSecret`, releases its slot. -/
theorem C12_admission_gate_caps_workers_witness :
    (Gate.reached 12 crowdedSchedule).inFlight = 10 ∧
      (Gate.reached 12 crowdedSchedule).workers[11]? = some .waiting ∧
      (Gate.reached 12 (crowdedSchedule ++ [.worker 0])).workers[0]? = some .returned ∧
      ∃ next, (Gate.reached 12 (crowdedSchedule ++ [.worker 0])).step (.worker 0) = some next ∧
        next.workers[0]? = some .done ∧
        next.inFlight + 1 = (Gate.reached 12 (crowdedSchedule ++ [.worker 0])).inFlight ∧
        next.semaphore + 1 = (Gate.reached 12 (crowdedSchedule ++ [.worker 0])).semaphore :=
  ⟨by decide, by decide, by decide,
    ((C12_admission_gate_caps_workers 12 (crowdedSchedule ++ [.worker 0])).2.2.2 0).2
      (by decide)⟩

/-! ## The object that is sealed -/

theorem ProcessSecret_seals_once (env : Env) (p : SecretProcessor) (secret : Secret)
    (h : ¬ excluded secret) :
    ∃ rest, ProcessSecret env p secret = .seal p.PublicKey (cleanSecretOf p secret) :: rest ∧
      rest.filter isSealCall = [] := by
  cases hseal : env.NewSealedSecret p.PublicKey (cleanSecretOf p secret) with
  | error e =>
    exact ⟨_, ProcessSecret_seal_error env p secret h e hseal, rfl⟩
  | ok ss =>
    refine ⟨_, ProcessSecret_sealed env p secret h ss hseal, ?_⟩
    show List.filter isSealCall ((exportSwitch env p ss).1 ++ _) = []
    rw [List.filter_append, (exportSwitch_events env p ss).2.1]
    rfl

/-- C11, as stated, fails: the object sealed for the opaque record `db-cred` also
carries the type of the record, so it is not the object made of name, destination
namespace, labels, annotations and data alone. -/
theorem C11_sealed_object_keeps_the_type :
    (ProcessSecret sampleEnv (sampleProcessor "yaml") (sampleSecret "db-cred" "Opaque")).head? =
        some (.seal sampleKey
          (cleanSecretOf (sampleProcessor "yaml") (sampleSecret "db-cred" "Opaque"))) ∧
      (cleanSecretOf (sampleProcessor "yaml") (sampleSecret "db-cred" "Opaque")).Type_ =
        "Opaque" ∧
      cleanSecretOf (sampleProcessor "yaml") (sampleSecret "db-cred" "Opaque") ≠
        { ObjectMeta :=
            { Name := "db-cred"
              Namespace := "prod"
              Labels := (sampleSecret "db-cred" "Opaque").ObjectMeta.Labels
              Annotations := (sampleSecret "db-cred" "Opaque").ObjectMeta.Annotations }
          Data := (sampleSecret "db-cred" "Opaque").Data } := by
  decide

/-- C11, amended: for a record of a type that is not excluded, `ProcessSecret` calls the
sealing library exactly once, first of all, and the object it passes carries the
name of the record, the destination namespace, the labels, annotations, data and
type of the record, and nothing else: every other field, the source namespace, UID,
resource version, owner references and the rest of the metadata among them, has its
zero value. -/
theorem C11_sealed_object_is_the_projection (env : Env) (p : SecretProcessor)
    (secret : Secret) (hne : ¬ excluded secret) :
    ∃ clean rest, ProcessSecret env p secret = .seal p.PublicKey clean :: rest ∧
      rest.filter isSealCall = [] ∧
      clean =
        { TypeMeta := { Kind := "", APIVersion := "" }
          ObjectMeta :=
            { Name := secret.ObjectMeta.Name
              GenerateName := ""
              Namespace := p.NewNamespace
              SelfLink := ""
              UID := ""
              ResourceVersion := ""
              Generation := 0
              CreationTimestamp := ⟨0⟩
              DeletionTimestamp := none
              DeletionGracePeriodSeconds := none
              Labels := secret.ObjectMeta.Labels
              Annotations := secret.ObjectMeta.Annotations
              OwnerReferences := []
              Finalizers := [] }
          Immutable := none
          Data := secret.Data
          StringData := none
          Type_ := secret.Type_ } := by
  obtain ⟨rest, hrest, hseal⟩ := ProcessSecret_seals_once env p secret hne
  exact ⟨cleanSecretOf p secret, rest, hrest, hseal, rfl⟩

/-- Witness of the amended C11 on the record `db-cred` of namespace `dev`, sealed for
namespace `prod`. -/
theorem C11_sealed_object_is_the_projection_witness :
    ∃ clean rest,
      ProcessSecret sampleEnv (sampleProcessor "direct") (sampleSecret "db-cred" "Opaque") =
        .seal (sampleProcessor "direct").PublicKey clean :: rest ∧
      rest.filter isSealCall = [] ∧
      clean =
        { TypeMeta := { Kind := "", APIVersion := "" }
          ObjectMeta :=
            { Name := (sampleSecret "db-cred" "Opaque").ObjectMeta.Name
              GenerateName := ""
              Namespace := (sampleProcessor "direct").NewNamespace
              SelfLink := ""
              UID := ""
              ResourceVersion := ""
              Generation := 0
              CreationTimestamp := ⟨0⟩
              DeletionTimestamp := none
              DeletionGracePeriodSeconds := none
              Labels := (sampleSecret "db-cred" "Opaque").ObjectMeta.Labels
              Annotations := (sampleSecret "db-cred" "Opaque").ObjectMeta.Annotations
              OwnerReferences := []
              Finalizers := [] }
          Immutable := none
          Data := (sampleSecret "db-cred" "Opaque").Data
          StringData := none
          Type_ := (sampleSecret "db-cred" "Opaque").Type_ } :=
  C11_sealed_object_is_the_projection sampleEnv (sampleProcessor "direct")
    (sampleSecret "db-cred" "Opaque") (by decide)

/-! ## Isolation of the records -/

theorem received_flatten_workers (env : Env) (p : SecretProcessor) (config : Config)
    (additionalData : GoMap Bytes) (items : List Secret) :
    received (items.map (worker env p config additionalData)).flatten =
      (items.map (fun s => received (worker env p config additionalData s))).flatten := by
  induction items with
  | nil => rfl
  | cons item items ih =>
    rw [List.map_cons, List.flatten_cons, received_append, ih, List.map_cons, List.flatten_cons]

theorem received_runEvents_perm (env : Env) (config : Config) (publicKey : PublicKey)
    (additionalData : GoMap Bytes) (items : List Secret) (schedule : List Nat) :
    (received (runEvents env config publicKey additionalData items schedule)).Perm
      (items.map (fun s => received (worker env
        (NewProcessor config.NewNamespace publicKey config.ExportMode config.OutputDir)
        config additionalData s))).flatten := by
  rw [← received_flatten_workers]
  exact (interleave_perm schedule _).filterMap _

theorem worker_result_received (env : Env) (config : Config) (publicKey : PublicKey)
    (additionalData : GoMap Bytes) (items : List Secret) (schedule : List Nat)
    (secret : Secret) (hmem : secret ∈ items) (r : ProcessResult)
    (hr : r ∈ received (worker env
      (NewProcessor config.NewNamespace publicKey config.ExportMode config.OutputDir)
      config additionalData secret)) :
    r ∈ received (runEvents env config publicKey additionalData items schedule) := by
  rw [(received_runEvents_perm env config publicKey additionalData items schedule).mem_iff]
  exact List.mem_flatten.2 ⟨_, List.mem_map.2 ⟨secret, hmem, rfl⟩, hr⟩

/-- C13: with the configuration, the key, the extra data and the behaviour of sealing
and sinks fixed, a record has one result, computed from that record alone by its
worker; this same result is received in every run whose input contains the record,
whatever the other records and the schedule are, and the results received in a run
are, up to order, exactly the results of the workers of its records, so that no
record, failing or not, removes or changes the result of another. -/
theorem C13_results_are_isolated (env : Env) (config : Config) (publicKey : PublicKey)
    (additionalData : GoMap Bytes) (items₁ items₂ : List Secret)
    (schedule₁ schedule₂ : List Nat) (secret : Secret)
    (h₁ : secret ∈ items₁) (h₂ : secret ∈ items₂) :
    (∃ r, received (worker env
          (NewProcessor config.NewNamespace publicKey config.ExportMode config.OutputDir)
          config additionalData secret) = [r] ∧
        r ∈ received (runEvents env config publicKey additionalData items₁ schedule₁) ∧
        r ∈ received (runEvents env config publicKey additionalData items₂ schedule₂)) ∧
      (received (runEvents env config publicKey additionalData items₁ schedule₁)).Perm
        (items₁.map (fun s => received (worker env
          (NewProcessor config.NewNamespace publicKey config.ExportMode config.OutputDir)
          config additionalData s))).flatten := by
  obtain ⟨r, hr, _⟩ := ProcessSecret_received env
    (NewProcessor config.NewNamespace publicKey config.ExportMode config.OutputDir)
    (inject config additionalData secret)
  have hmem : r ∈ received (worker env
      (NewProcessor config.NewNamespace publicKey config.ExportMode config.OutputDir)
      config additionalData secret) := by
    unfold worker
    rw [hr]
    exact List.mem_singleton.2 rfl
  exact ⟨⟨r, hr, worker_result_received env config publicKey additionalData items₁ schedule₁
      secret h₁ r hmem,
    worker_result_received env config publicKey additionalData items₂ schedule₂
      secret h₂ r hmem⟩,
    received_runEvents_perm env config publicKey additionalData items₁ schedule₁⟩

/-- Witness of C13: the record `db-cred` in a run beside a record that fails to seal and
in another run beside a record the remote store refuses and a skipped token. -/
theorem C13_results_are_isolated_witness :
    (∃ r, received (worker sampleEnv
          (NewProcessor (runConfig "direct").NewNamespace sampleKey
            (runConfig "direct").ExportMode (runConfig "direct").OutputDir)
          (runConfig "direct") GoMap.make (sampleSecret "db-cred" "Opaque")) = [r] ∧
        r ∈ received (runEvents sampleEnv (runConfig "direct") sampleKey GoMap.make
          [sampleSecret "broken" "Opaque", sampleSecret "db-cred" "Opaque"] [1, 0, 1]) ∧
        r ∈ received (runEvents sampleEnv (runConfig "direct") sampleKey GoMap.make
          [sampleSecret "taken" "Opaque", sampleSecret "db-cred" "Opaque",
            sampleSecret "default-token" "kubernetes.io/service-account-token"] [2, 0])) ∧
      (received (runEvents sampleEnv (runConfig "direct") sampleKey GoMap.make
          [sampleSecret "broken" "Opaque", sampleSecret "db-cred" "Opaque"] [1, 0, 1])).Perm
        ([sampleSecret "broken" "Opaque", sampleSecret "db-cred" "Opaque"].map
          (fun s => received (worker sampleEnv
            (NewProcessor (runConfig "direct").NewNamespace sampleKey
              (runConfig "direct").ExportMode (runConfig "direct").OutputDir)
            (runConfig "direct") GoMap.make s))).flatten :=
  C13_results_are_isolated sampleEnv (runConfig "direct") sampleKey GoMap.make
    [sampleSecret "broken" "Opaque", sampleSecret "db-cred" "Opaque"]
    [sampleSecret "taken" "Opaque", sampleSecret "db-cred" "Opaque",
      sampleSecret "default-token" "kubernetes.io/service-account-token"]
    [1, 0, 1] [2, 0] (sampleSecret "db-cred" "Opaque") (by decide) (by decide)

/-! ## Export modes other than `yaml` and `direct` -/

theorem ProcessSecret_other_mode (env : Env) (p : SecretProcessor) (secret : Secret)
    (hne : ¬ excluded secret) (ss : SealedSecret)
    (hseal : env.NewSealedSecret p.PublicKey (cleanSecretOf p secret) = .ok ss)
    (hy : p.ExportMode ≠ ExportModeYAML) (hd : p.ExportMode ≠ ExportModeDirect) :
    ProcessSecret env p secret =
      [.seal p.PublicKey (cleanSecretOf p secret),
        .send { SecretName := secret.ObjectMeta.Name, Success := true, Skipped := false,
                Err := none }] := by
  have hswitch : exportSwitch env p ss = ([], none) := by
    unfold exportSwitch
    rw [if_neg hy, if_neg hd]
  rw [ProcessSecret_sealed env p secret hne ss hseal, hswitch]
  rfl

/-- C15: with export mode `json`, a value the command line accepts, the opaque record
`db-cred` seals without error and `ProcessSecret` sends a result with
`Success = true` although it has entered no sink, written no file and sent no create
request. -/
theorem C15_success_without_a_sink :
    ProcessSecret sampleEnv (sampleProcessor "json") (sampleSecret "db-cred" "Opaque") =
        [.seal sampleKey (cleanSecretOf (sampleProcessor "json") (sampleSecret "db-cred" "Opaque")),
          .send { SecretName := "db-cred", Success := true, Skipped := false, Err := none }] ∧
      (ProcessSecret sampleEnv (sampleProcessor "json")
        (sampleSecret "db-cred" "Opaque")).filter isSinkCall = [] ∧
      (run sampleEnv (runConfig "json") sampleKey GoMap.make
        [sampleSecret "db-cred" "Opaque"] []) =
        { total := 1, success := 1, skipped := 0, failed := 0 } := by
  decide

/-! ## The file written by the file-export sink -/

theorem splitSlash_ne_nil (cs : List Char) : splitSlash cs ≠ [] := by
  cases cs with
  | nil => simp [splitSlash]
  | cons c cs =>
    unfold splitSlash
    split
    · simp
    · split <;> simp

theorem splitSlash_no_slash (cs : List Char) (h : '/' ∉ cs) : splitSlash cs = [cs] := by
  induction cs with
  | nil => rfl
  | cons c cs ih =>
    simp only [List.mem_cons, not_or] at h
    have hc : ¬ c = '/' := fun e => h.1 e.symm
    simp [splitSlash, hc, ih h.2]

theorem splitSlash_append (a b : List Char) :
    splitSlash (a ++ '/' :: b) = splitSlash a ++ splitSlash b := by
  induction a with
  | nil => simp [splitSlash]
  | cons c a ih =>
    by_cases hc : c = '/'
    · simp [splitSlash, hc, ih]
    · have h1 : splitSlash (c :: (a ++ '/' :: b)) =
          match splitSlash (a ++ '/' :: b) with
          | [] => [[c]]
          | x :: xs => (c :: x) :: xs := by
        simp [splitSlash, hc]
      have h2 : splitSlash (c :: a) =
          match splitSlash a with
          | [] => [[c]]
          | x :: xs => (c :: x) :: xs := by
        simp [splitSlash, hc]
      rw [List.cons_append, h1, h2, ih]
      cases hs : splitSlash a with
      | nil => exact absurd hs (splitSlash_ne_nil a)
      | cons x xs => rfl

theorem intercalate_go_concat (s a : String) (rest : List String) :
    ∀ acc : String, String.intercalate.go acc s (rest ++ [a]) =
      String.intercalate.go acc s rest ++ s ++ a := by
  induction rest with
  | nil => intro acc; simp [String.intercalate.go]
  | cons x rest ih => intro acc; simp [String.intercalate.go, ih]

theorem intercalate_concat (s a : String) (xs : List String) :
    String.intercalate s (xs ++ [a]) =
      if xs = [] then a else String.intercalate s xs ++ s ++ a := by
  cases xs with
  | nil => simp [String.intercalate, String.intercalate.go]
  | cons x xs => simp [String.intercalate, intercalate_go_concat]

theorem string_append_ne_empty (a b : String) (hb : b ≠ "") : a ++ b ≠ "" := by
  intro h
  have hd := congrArg String.data h
  rw [String.data_append] at hd
  have : b.data = [] := (List.append_eq_nil.1 hd).2
  exact hb (String.ext this)

theorem Clean_last_element (path : String) (rooted : Bool) (xs : List (List Char))
    (f : List Char) (hpath : path ≠ "")
    (hrooted : rooted = decide (path.data.head? = some '/'))
    (hsplit : splitSlash path.data = xs ++ [f])
    (h0 : f ≠ []) (h1 : f ≠ ['.']) (h2 : f ≠ ['.', '.']) :
    Clean path = cleanDir rooted xs ++ String.mk f := by
  have hf : String.mk f ≠ "" := by
    intro h
    exact h0 (congrArg String.data h)
  have hstep : ∀ out, cleanStep rooted out f = f :: out := by
    intro out
    simp [cleanStep, h0, h1, h2]
  unfold Clean cleanDir
  rw [if_neg hpath]
  simp only [← hrooted, hsplit, List.foldl_concat, hstep, List.reverse_cons, List.map_append,
    List.map_cons, List.map_nil, intercalate_concat]
  cases rooted with
  | true =>
    by_cases hout : List.foldl (cleanStep true) [] xs = []
    · simp [hout]
    · simp [hout, String.append_assoc]
  | false =>
    by_cases hout : List.foldl (cleanStep false) [] xs = []
    · simp [hout, hf]
    · simp [hout, String.append_assoc]
      intro h
      exact absurd h (string_append_ne_empty _ _ (string_append_ne_empty _ _ hf))


theorem sealed_name_data (n : String) :
    (n ++ "-sealed.yaml").data = n.data ++ "-sealed.yaml".data :=
  String.data_append n "-sealed.yaml"

theorem sealed_name_good (n : String) (hn : '/' ∉ n.data) :
    '/' ∉ (n ++ "-sealed.yaml").data ∧ (n ++ "-sealed.yaml").data ≠ [] ∧
      (n ++ "-sealed.yaml").data ≠ ['.'] ∧ (n ++ "-sealed.yaml").data ≠ ['.', '.'] := by
  have hlen : 12 ≤ (n ++ "-sealed.yaml").data.length := by
    rw [sealed_name_data, List.length_append]
    have : "-sealed.yaml".data.length = 12 := by decide
    omega
  refine ⟨?_, ?_, ?_, ?_⟩
  · rw [sealed_name_data, List.mem_append, not_or]
    exact ⟨hn, by decide⟩
  · intro h; rw [h] at hlen; simp at hlen
  · intro h; rw [h] at hlen; simp at hlen
  · intro h; rw [h] at hlen; simp at hlen

theorem Join_plain_file (d file : String) (hslash : '/' ∉ file.data) (h0 : file.data ≠ [])
    (h1 : file.data ≠ ['.']) (h2 : file.data ≠ ['.', '.']) :
    Join [d, file] = joinDir d ++ file := by
  have hfile : file ≠ "" := fun h => h0 (congrArg String.data h)
  have hmk : String.mk file.data = file := rfl
  by_cases hd : d = ""
  · have hj : Join [d, file] = Clean file := by
      simp [Join, hd, hfile, String.intercalate, String.intercalate.go]
    have hroot : false = decide (file.data.head? = some '/') := by
      cases hdata : file.data with
      | nil => exact absurd hdata h0
      | cons c cs =>
        rw [hdata] at hslash
        have : ¬ c = '/' := fun e => hslash (e ▸ List.mem_cons_self _ _)
        simp [this]
    rw [hj, Clean_last_element file false [] file.data hfile hroot
      (by rw [splitSlash_no_slash _ hslash]; rfl) h0 h1 h2, hmk]
    simp [joinDir, hd, cleanDir]
  · have hj : Join [d, file] = Clean (d ++ "/" ++ file) := by
      simp [Join, hd, String.intercalate, String.intercalate.go]
    have hdata : (d ++ "/" ++ file).data = d.data ++ '/' :: file.data := by
      rw [String.data_append, String.data_append]
      simp
    have hne : d ++ "/" ++ file ≠ "" := string_append_ne_empty _ _ hfile
    have hdne : d.data ≠ [] := fun h => hd (String.ext h)
    have hroot : decide (d.data.head? = some '/') =
        decide ((d ++ "/" ++ file).data.head? = some '/') := by
      rw [hdata]
      cases hdd : d.data with
      | nil => exact absurd hdd hdne
      | cons c cs => rfl
    rw [hj, Clean_last_element (d ++ "/" ++ file) (decide (d.data.head? = some '/'))
      (splitSlash d.data) file.data hne hroot
      (by rw [hdata, splitSlash_append, splitSlash_no_slash _ hslash]) h0 h1 h2, hmk]
    simp [joinDir, hd]

theorem exportSealedSecretToYAML_marshalled (env : Env) (outputDir : String) (ss : SealedSecret)
    (yamlData : Bytes)
    (h : env.Marshal { ss with
      TypeMeta := { APIVersion := "bitnami.com/v1alpha1", Kind := "SealedSecret" } } =
        .ok yamlData) :
    exportSealedSecretToYAML env outputDir ss =
      ([.marshal { ss with
          TypeMeta := { APIVersion := "bitnami.com/v1alpha1", Kind := "SealedSecret" } },
        .writeFile (Join [outputDir, ss.ObjectMeta.Name ++ "-sealed.yaml"]) yamlData 0o644],
        env.WriteFile (Join [outputDir, ss.ObjectMeta.Name ++ "-sealed.yaml"]) yamlData 0o644) := by
  unfold exportSealedSecretToYAML
  simp only [h]

theorem exportSealedSecretToYAML_writes (env : Env) (outputDir : String) (ss : SealedSecret)
    (f : String) (data : Bytes) (perm : Nat)
    (h : Event.writeFile f data perm ∈ (exportSealedSecretToYAML env outputDir ss).1) :
    f = Join [outputDir, ss.ObjectMeta.Name ++ "-sealed.yaml"] := by
  unfold exportSealedSecretToYAML at h
  dsimp only at h
  split at h
  · simp at h
  · simp at h
    exact h.1

/-- C14: every file the file-export sink writes for a sealed secret named n with output
directory d has the path `filepath.Join(d, n + "-sealed.yaml")`, and when the YAML
encoding succeeds the sink writes exactly one file, the encoding, with mode 0644.
For a name without path separator that path is the cleaned directory followed by the
file name n-sealed.yaml itself. Distinct names give distinct file names, and for
names without path separator distinct paths in the same directory. -/
theorem C14_export_file_path (env : Env) (outputDir : String) (ss : SealedSecret) :
    (∀ (f : String) (data : Bytes) (perm : Nat),
        Event.writeFile f data perm ∈ (exportSealedSecretToYAML env outputDir ss).1 →
          f = Join [outputDir, ss.ObjectMeta.Name ++ "-sealed.yaml"]) ∧
      (∀ yamlData : Bytes,
        env.Marshal { ss with
          TypeMeta := { APIVersion := "bitnami.com/v1alpha1", Kind := "SealedSecret" } } =
            .ok yamlData →
        (exportSealedSecretToYAML env outputDir ss).1.filter isWriteFile =
            [.writeFile (Join [outputDir, ss.ObjectMeta.Name ++ "-sealed.yaml"]) yamlData 0o644] ∧
          (exportSealedSecretToYAML env outputDir ss).2 =
            env.WriteFile (Join [outputDir, ss.ObjectMeta.Name ++ "-sealed.yaml"])
              yamlData 0o644) ∧
      ('/' ∉ ss.ObjectMeta.Name.data →
        Join [outputDir, ss.ObjectMeta.Name ++ "-sealed.yaml"] =
          joinDir outputDir ++ (ss.ObjectMeta.Name ++ "-sealed.yaml")) ∧
      (∀ n₁ n₂ : String, n₁ ≠ n₂ → n₁ ++ "-sealed.yaml" ≠ n₂ ++ "-sealed.yaml") ∧
      (∀ n₁ n₂ : String, '/' ∉ n₁.data → '/' ∉ n₂.data → n₁ ≠ n₂ →
        Join [outputDir, n₁ ++ "-sealed.yaml"] ≠ Join [outputDir, n₂ ++ "-sealed.yaml"]) := by
  have hname : ∀ n₁ n₂ : String, n₁ ≠ n₂ → n₁ ++ "-sealed.yaml" ≠ n₂ ++ "-sealed.yaml" := by
    intro n₁ n₂ hne h
    have hd := congrArg String.data h
    rw [String.data_append, String.data_append] at hd
    exact hne (String.ext (List.append_cancel_right hd))
  have hjoin : ∀ n : String, '/' ∉ n.data →
      Join [outputDir, n ++ "-sealed.yaml"] = joinDir outputDir ++ (n ++ "-sealed.yaml") := by
    intro n hn
    obtain ⟨hs, h0, h1, h2⟩ := sealed_name_good n hn
    exact Join_plain_file outputDir _ hs h0 h1 h2
  refine ⟨exportSealedSecretToYAML_writes env outputDir ss, ?_, hjoin _, hname, ?_⟩
  · intro yamlData h
    rw [exportSealedSecretToYAML_marshalled env outputDir ss yamlData h]
    exact ⟨rfl, rfl⟩
  · intro n₁ n₂ h₁ h₂ hne h
    rw [hjoin n₁ h₁, hjoin n₂ h₂] at h
    have hd := congrArg String.data h
    rw [String.data_append, String.data_append] at hd
    exact hname n₁ n₂ hne (String.ext (List.append_cancel_left hd))

/-- Witness of C14: the sealed secret `db-cred` with output directory `sealed-secrets`
is written to `sealed-secrets/db-cred-sealed.yaml`, and the secrets `db-cred` and
`api-key` go to different paths. -/
theorem C14_export_file_path_witness :
    (exportSealedSecretToYAML sampleEnv "sealed-secrets"
          (sampleSealed (sampleSecret "db-cred" "Opaque"))).1.filter isWriteFile =
        [.writeFile "sealed-secrets/db-cred-sealed.yaml" [45, 45, 45] 0o644] ∧
      Join ["sealed-secrets", "db-cred" ++ "-sealed.yaml"] =
        joinDir "sealed-secrets" ++ ("db-cred" ++ "-sealed.yaml") ∧
      joinDir "sealed-secrets" = "sealed-secrets/" ∧
      Join ["sealed-secrets", "db-cred" ++ "-sealed.yaml"] ≠
        Join ["sealed-secrets", "api-key" ++ "-sealed.yaml"] :=
  ⟨((C14_export_file_path sampleEnv "sealed-secrets"
      (sampleSealed (sampleSecret "db-cred" "Opaque"))).2.1 [45, 45, 45] rfl).1,
    (C14_export_file_path sampleEnv "sealed-secrets"
      (sampleSealed (sampleSecret "db-cred" "Opaque"))).2.2.1 (by decide),
    by decide,
    (C14_export_file_path sampleEnv "sealed-secrets"
      (sampleSealed (sampleSecret "db-cred" "Opaque"))).2.2.2.2 "db-cred" "api-key"
      (by decide) (by decide) (by decide)⟩

end SST
